import Mathlib

/-!
# SnevenTracker mixer (`Source/APU/Mixer.cpp`): embedding and verified properties

The mixer turns per-channel amplitude events into timed delta impulses for two
band-limited buffers (left, right) and keeps a decaying per-channel level meter.

Conventions of the embedding

* C `int` values are `Int`; arithmetic that can overflow is wrapped to 32 bits
  (`wrap32`), and `I32 x` says that `x` is a value an `int` can hold.
* C `float` values are modelled exactly.  Every finite binary32 number is an
  integer multiple of `2^-149`, so a float is represented by that integer
  (`F32`); `F32.unit = 2^149` represents `1.0f`.  Comparison is comparison of
  integers.  Each arithmetic operation computes the exact result and rounds it
  to the nearest binary32 value, ties to even (`F32.round`).  Infinities and
  NaN are outside the model.
* The blip-buffer library is external.  A buffer is modelled by the log of the
  calls it receives (`BlipCall`), a synth by the log of its configuration calls
  (`SynthCall`); an impulse is an `offset` entry in a buffer's log.
* Enumerators, the channel count and the volume table are declared in headers
  that are not part of the sources; they are the fields of `Env`.
-/

namespace SnevenTracker

/-! ## Machine integers -/

/-- Two's-complement wrap of an integer to 32 bits. -/
def wrap32 (x : Int) : Int := (x + 2147483648) % 4294967296 - 2147483648

/-- The values of a C `int`. -/
def I32 (x : Int) : Prop := -2147483648 ≤ x ∧ x < 2147483648

instance (x : Int) : Decidable (I32 x) := by unfold I32; infer_instance

/-! ## Single-precision floats -/

/-- A finite binary32 value, as an integer count of steps of `2^-149`. -/
abbrev F32 := Int

namespace F32

/-- The representation of `1.0f`. -/
def unit : Nat := 2 ^ 149

/-- Number of binary digits of `n`, by halving (`fuel` bounds the number of steps). -/
def bitLenAux : Nat → Nat → Nat
  | 0, _ => 0
  | fuel + 1, n => if n = 0 then 0 else bitLenAux fuel (n / 2) + 1

/-- Number of binary digits of `n` (`0` for `0`). -/
def bitLen (n : Nat) : Nat := bitLenAux n n

/-- Nearest binary32 magnitude to `a / den` (in steps of `2^-149`), ties to even.
A magnitude with more than 24 binary digits is rounded to a multiple of `2^k`,
`k` being the number of excess digits. -/
def roundMag (a den : Nat) : Nat :=
  let k := bitLen (a / den) - 24
  let D := den * 2 ^ k
  let f := a / D
  let r := a % D
  let n := if 2 * r < D then f else if D < 2 * r then f + 1 else if f % 2 = 0 then f else f + 1
  n * 2 ^ k

/-- Nearest binary32 value to `num / den` steps, ties to even. -/
def round (num : Int) (den : Nat) : F32 :=
  if 0 ≤ num then (roundMag num.natAbs den : Int) else -(roundMag num.natAbs den : Int)

/-- The float literal written `num / den` in decimal, e.g. `0.6f` is `lit 6 10`. -/
def lit (num : Int) (den : Nat) : F32 := round (num * (unit : Int)) den

/-- Conversion `int → float`. -/
def ofInt (n : Int) : F32 := round (n * (unit : Int)) 1

/-- Float addition. -/
def add (a b : F32) : F32 := round (a + b) 1

/-- Float subtraction. -/
def sub (a b : F32) : F32 := round (a - b) 1

/-- Float multiplication. -/
def mul (a b : F32) : F32 := round (a * b) unit

/-- Float division (`b ≠ 0`). -/
def div (a b : F32) : F32 :=
  if 0 ≤ b then round (a * (unit : Int)) b.natAbs else round (-(a * (unit : Int))) b.natAbs

/-- Conversion `(int)x`: truncation toward zero; a value that does not fit an `int`
gives the x86 "integer indefinite" value `INT_MIN`. -/
def toInt (x : F32) : Int :=
  let t := Int.tdiv x (unit : Int)
  if -2147483648 ≤ t ∧ t < 2147483648 then t else -2147483648

/-- The rational number a float denotes. -/
def toRat (x : F32) : ℚ := (x : ℚ) / (2 : ℚ) ^ 149

end F32

/-! ## Declarations taken from headers outside the sources -/

/-- Constants the mixer uses but does not define: the channel count and channel
enumerators (`APU.h`), the default chip enumerator and the SN76489 volume table
(`SN76489_new.h`; entry `i` is the amplitude of attenuation step `i`). -/
structure Env where
  CHANNELS : Nat
  CHANID_SQUARE1 : Int
  CHANID_SQUARE2 : Int
  CHANID_SQUARE3 : Int
  CHANID_NOISE : Int
  SNDCHIP_NONE : Int
  VOLUME_TABLE : Nat → Int

/-- The selector of `SetChipLevel`. -/
inductive chip_level_t
  | CHIP_LEVEL_SN7L
  | CHIP_LEVEL_SN7R
  | CHIP_LEVEL_SN7Sep
  deriving DecidableEq, Repr

/-- A call received by a blip buffer (directly, or through a synth for `offset`). -/
inductive BlipCall
  | bass_freq (freq : Int)
  | set_sample_rate (rate : Int) (msec : Int)
  | clock_rate (rate : Int)
  | clear
  | end_frame (t : Int)
  | offset (t : Int) (delta : Int)
  | read_samples (count : Int) (stereo : Bool)
  | mix_samples (count : Int)
  deriving DecidableEq, Repr

/-- A configuration call received by a synth: `treble_eq(blip_eq_t(treble, cutoff, rate))`
or `volume(v)`. -/
inductive SynthCall
  | treble_eq (treble : Int) (cutoff : Int) (sampleRate : Int)
  | volume (v : F32)
  deriving DecidableEq, Repr

/-- The impulses `(time, delta)` a buffer has received, oldest first. -/
def impulses : List BlipCall → List (Int × Int)
  | [] => []
  | BlipCall.offset t d :: rest => (t, d) :: impulses rest
  | _ :: rest => impulses rest

/-! ## The mixer -/

/-- Fall-off rate of the level meter per frame, `0.6f`. -/
def LEVEL_FALL_OFF_RATE : F32 := F32.lit 6 10

/-- Number of frames a raised level is held before it falls. -/
def LEVEL_FALL_OFF_DELAY : Nat := 3

/-- The data members of `CMixer`; arrays indexed by channel are functions.  The two
`double` sums are only ever set to zero and are kept as integers. -/
structure CMixer where
  m_iChannelsLeft : Int → Int
  m_iChannelsRight : Int → Int
  m_fChannelLevels : Int → F32
  m_iChanLevelFallOff : Int → Nat
  m_fLevelSN7Left : F32
  m_fLevelSN7Right : F32
  m_fLevelSN7SepHi : F32
  m_fLevelSN7SepLo : F32
  m_iExternalChip : Int
  m_iSampleRate : Int
  m_iLowCut : Int
  m_iHighCut : Int
  m_iHighDamp : Int
  m_fOverallVol : F32
  m_dSumSS : Int
  m_dSumTND : Int
  BlipBufferLeft : List BlipCall
  BlipBufferRight : List BlipCall
  SynthSN76489Left : List SynthCall
  SynthSN76489Right : List SynthCall

/-- Array store `a[i] = v`. -/
def setAt {α : Type} (a : Int → α) (i : Int) (v : α) : Int → α :=
  fun j => if j = i then v else a j

namespace CMixer

/-- The constructor `CMixer::CMixer()`; buffers and synths start with empty logs. -/
def new : CMixer where
  m_iChannelsLeft := fun _ => 0
  m_iChannelsRight := fun _ => 0
  m_fChannelLevels := fun _ => 0
  m_iChanLevelFallOff := fun _ => 0
  m_fLevelSN7Left := F32.lit 1 1
  m_fLevelSN7Right := F32.lit 1 1
  m_fLevelSN7SepHi := F32.lit 1 1
  m_fLevelSN7SepLo := F32.lit 0 1
  m_iExternalChip := 0
  m_iSampleRate := 0
  m_iLowCut := 0
  m_iHighCut := 0
  m_iHighDamp := 0
  m_fOverallVol := F32.lit 1 1
  m_dSumSS := 0
  m_dSumTND := 0
  BlipBufferLeft := []
  BlipBufferRight := []
  SynthSN76489Left := []
  SynthSN76489Right := []

/-- The method `SetChipLevel(Chip, Level)`. -/
def SetChipLevel (s : CMixer) (Chip : chip_level_t) (Level : F32) : CMixer :=
  match Chip with
  | .CHIP_LEVEL_SN7L => { s with m_fLevelSN7Left := Level }
  | .CHIP_LEVEL_SN7R => { s with m_fLevelSN7Right := Level }
  | .CHIP_LEVEL_SN7Sep =>
    { s with
      m_fLevelSN7SepHi := F32.add (F32.lit 5 10) (F32.div Level (F32.lit 2 1))
      m_fLevelSN7SepLo := F32.sub (F32.lit 5 10) (F32.div Level (F32.lit 2 1)) }

/-- The case labels `CHANID_SQUARE1 … CHANID_NOISE` shared by the switches of
`AddValue` and `StoreChannelLevel`. -/
def isSN7Channel (env : Env) (ch : Int) : Bool :=
  ch == env.CHANID_SQUARE1 || ch == env.CHANID_SQUARE2 ||
    ch == env.CHANID_SQUARE3 || ch == env.CHANID_NOISE

/-- The loop `while (AbsVol < 15 && Lv >= VOLUME_TABLE[14 - AbsVol]) ++AbsVol;`
started at `AbsVol`, with at most `fuel` iterations. -/
def levelLoop (T : Nat → Int) (Lv : Int) : Nat → Nat → Nat
  | 0, AbsVol => AbsVol
  | fuel + 1, AbsVol =>
    if AbsVol < 15 ∧ Lv ≥ T (14 - AbsVol) then levelLoop T Lv fuel (AbsVol + 1) else AbsVol

/-- The value of `AbsVol` that `StoreChannelLevel` compares with the stored level:
`abs(Value)`, replaced for square and noise channels by the table level found by the
loop started at 0 (15 iterations always suffice). -/
def levelOf (env : Env) (Channel Value : Int) : Int :=
  let AbsVol := wrap32 |Value|
  if isSN7Channel env Channel then (levelLoop env.VOLUME_TABLE AbsVol 15 0 : Nat) else AbsVol

/-- The method `StoreChannelLevel(Channel, Value)`. -/
def StoreChannelLevel (env : Env) (s : CMixer) (Channel Value : Int) : CMixer :=
  let AbsVol := levelOf env Channel Value
  if F32.ofInt AbsVol ≥ s.m_fChannelLevels Channel then
    { s with
      m_fChannelLevels := setAt s.m_fChannelLevels Channel (F32.ofInt AbsVol)
      m_iChanLevelFallOff := setAt s.m_iChanLevelFallOff Channel LEVEL_FALL_OFF_DELAY }
  else s

/-- The method `ClearChannelLevels()`. -/
def ClearChannelLevels (s : CMixer) : CMixer :=
  { s with m_fChannelLevels := fun _ => 0, m_iChanLevelFallOff := fun _ => 0 }

/-- The expression `(int)sqrt(x)` for an `int` x: the square root is taken in double
precision, where it is exact enough for the truncation to be the integer square root
of every non-negative `int`; a negative x gives NaN, converted to `INT_MIN`. -/
def intSqrt (x : Int) : Int :=
  if 0 ≤ x then (Nat.sqrt x.toNat : Int) else -2147483648

/-- The argument `(int)sqrt((Left * Left + Right * Right) / 2)` of the level meter. -/
def combinedLevel (Left Right : Int) : Int :=
  intSqrt (Int.tdiv (wrap32 (wrap32 (Left * Left) + wrap32 (Right * Right))) 2)

/-- The inner switches of `AddValue`: the chip is the default one and the channel a
square or noise channel. -/
def routed (env : Env) (ChanID Chip : Int) : Bool :=
  Chip == env.SNDCHIP_NONE && isSN7Channel env ChanID

/-- The first `if` of `AddValue` (left side). -/
def addLeft (env : Env) (s : CMixer) (ChanID Chip Left FrameCycles : Int) : CMixer :=
  let Delta := wrap32 (Left - s.m_iChannelsLeft ChanID)
  if Delta ≠ 0 then
    let s1 := { s with m_iChannelsLeft := setAt s.m_iChannelsLeft ChanID Left }
    if routed env ChanID Chip then
      { s1 with
        BlipBufferLeft := s1.BlipBufferLeft ++
          [BlipCall.offset FrameCycles (F32.toInt (F32.mul (F32.ofInt Delta) s1.m_fLevelSN7SepHi))]
        BlipBufferRight := s1.BlipBufferRight ++
          [BlipCall.offset FrameCycles (F32.toInt (F32.mul (F32.ofInt Delta) s1.m_fLevelSN7SepLo))] }
    else s1
  else s

/-- The second `if` of `AddValue` (right side). -/
def addRight (env : Env) (s : CMixer) (ChanID Chip Right FrameCycles : Int) : CMixer :=
  let Delta := wrap32 (Right - s.m_iChannelsRight ChanID)
  if Delta ≠ 0 then
    let s1 := { s with m_iChannelsRight := setAt s.m_iChannelsRight ChanID Right }
    if routed env ChanID Chip then
      { s1 with
        BlipBufferLeft := s1.BlipBufferLeft ++
          [BlipCall.offset FrameCycles (F32.toInt (F32.mul (F32.ofInt Delta) s1.m_fLevelSN7SepLo))]
        BlipBufferRight := s1.BlipBufferRight ++
          [BlipCall.offset FrameCycles (F32.toInt (F32.mul (F32.ofInt Delta) s1.m_fLevelSN7SepHi))] }
    else s1
  else s

/-- The method `AddValue(ChanID, Chip, Left, Right, FrameCycles)`. -/
def AddValue (env : Env) (s : CMixer) (ChanID Chip Left Right FrameCycles : Int) : CMixer :=
  let s1 := StoreChannelLevel env s ChanID (combinedLevel Left Right)
  let s2 := addLeft env s1 ChanID Chip Left FrameCycles
  addRight env s2 ChanID Chip Right FrameCycles

/-- The body of the loop of `FinishBuffer` for channel `i`. -/
def fallOff (s : CMixer) (i : Int) : CMixer :=
  if s.m_iChanLevelFallOff i > 0 then
    { s with m_iChanLevelFallOff := setAt s.m_iChanLevelFallOff i (s.m_iChanLevelFallOff i - 1) }
  else if s.m_fChannelLevels i > 0 then
    let x := F32.sub (s.m_fChannelLevels i) LEVEL_FALL_OFF_RATE
    { s with m_fChannelLevels := setAt s.m_fChannelLevels i (if x < 0 then 0 else x) }
  else s

/-- The state after `FinishBuffer(t)`: both buffers end the frame, then the loop runs
over the channels `0 … CHANNELS - 1`. -/
def FinishBuffer (env : Env) (s : CMixer) (t : Int) : CMixer :=
  let s1 := { s with
    BlipBufferLeft := s.BlipBufferLeft ++ [BlipCall.end_frame t]
    BlipBufferRight := s.BlipBufferRight ++ [BlipCall.end_frame t] }
  (List.range env.CHANNELS).foldl (fun (st : CMixer) (i : Nat) => fallOff st (i : Int)) s1

/-- The level the loop body of `FinishBuffer` leaves in a channel that it visits
with level `lvl` and hold counter `hold`. -/
def fallenLevel (lvl : F32) (hold : Nat) : F32 :=
  if hold > 0 then lvl
  else if lvl > 0 then
    (if F32.sub lvl LEVEL_FALL_OFF_RATE < 0 then 0 else F32.sub lvl LEVEL_FALL_OFF_RATE)
  else lvl

/-- The hold counter the loop body of `FinishBuffer` leaves in a channel that it
visits with hold counter `hold`. -/
def fallenHold (hold : Nat) : Nat :=
  if hold > 0 then hold - 1 else hold

/-- The method `SamplesAvail()`, also the value returned by `FinishBuffer`;
`avail` is the buffer library's `samples_avail`. -/
def SamplesAvail (avail : List BlipCall → Int) (s : CMixer) : Int :=
  min (avail s.BlipBufferLeft) (avail s.BlipBufferRight)

/-- One call `AddValue(ChanID, Chip, Left, Right, FrameCycles)`, as data. -/
structure Event where
  ChanID : Int
  Chip : Int
  Left : Int
  Right : Int
  FrameCycles : Int
  deriving DecidableEq, Repr

/-- An event that is silent on channel `ch`: it addresses another channel, or both of
its amplitudes are zero. -/
def Event.quietOn (ch : Int) (e : Event) : Prop :=
  e.ChanID = ch → e.Left = 0 ∧ e.Right = 0

instance (ch : Int) (e : Event) : Decidable (e.quietOn ch) := by
  unfold Event.quietOn; infer_instance

/-- The mixer after a burst of `AddValue` calls. -/
def play (env : Env) (s : CMixer) (es : List Event) : CMixer :=
  es.foldl (fun st e => AddValue env st e.ChanID e.Chip e.Left e.Right e.FrameCycles) s

/-- One frame: the events of the frame, then `FinishBuffer(t)`. -/
def runFrame (env : Env) (s : CMixer) (f : List Event × Int) : CMixer :=
  FinishBuffer env (play env s f.1) f.2

/-- A sequence of frames. -/
def runFrames (env : Env) (s : CMixer) (fs : List (List Event × Int)) : CMixer :=
  fs.foldl (runFrame env) s

/-- The spec's decay step: the level minus the fixed rate, floored at zero. -/
def meterDecay (x : F32) : F32 := max 0 (F32.sub x LEVEL_FALL_OFF_RATE)

/-- The spec's meter curve after a raise to `V`: flat for the hold delay, then one
decay step per frame. -/
def meterAfter (V : F32) (n : Nat) : F32 := meterDecay^[n - LEVEL_FALL_OFF_DELAY] V

/-- The method `GetAttenuation()`: the constant `1.0f`. -/
def GetAttenuation (_s : CMixer) : F32 := F32.lit 1 1

/-- The method `UpdateSettings(LowCut, HighCut, HighDamp, OverallVol)`. -/
def UpdateSettings (s : CMixer) (LowCut HighCut HighDamp : Int) (OverallVol : F32) : CMixer :=
  let Volume := F32.mul OverallVol (GetAttenuation s)
  let eq := SynthCall.treble_eq (wrap32 (-HighDamp)) HighCut s.m_iSampleRate
  { s with
    BlipBufferLeft := s.BlipBufferLeft ++ [BlipCall.bass_freq LowCut]
    BlipBufferRight := s.BlipBufferRight ++ [BlipCall.bass_freq LowCut]
    SynthSN76489Left := s.SynthSN76489Left ++
      [eq, SynthCall.volume (F32.mul (F32.mul Volume (F32.lit 2 10)) s.m_fLevelSN7Left)]
    SynthSN76489Right := s.SynthSN76489Right ++
      [eq, SynthCall.volume (F32.mul (F32.mul Volume (F32.lit 2 10)) s.m_fLevelSN7Right)]
    m_iLowCut := LowCut
    m_iHighCut := HighCut
    m_iHighDamp := HighDamp
    m_fOverallVol := OverallVol }

/-- The method `ExternalSound(Chip)`. -/
def ExternalSound (s : CMixer) (Chip : Int) : CMixer :=
  UpdateSettings { s with m_iExternalChip := Chip } s.m_iLowCut s.m_iHighCut s.m_iHighDamp
    s.m_fOverallVol

/-- The method `AllocateBuffer(BufferLength, SampleRate, NrChannels)`: the returned
flag and the mixer afterwards, or `none` when the call does not return.  The
arguments are unsigned 32-bit values; `setOk buf rate msec` tells whether the library
call `set_sample_rate(rate, msec)` on a buffer with log `buf` succeeds (returns no
error).  The buffer duration `(BufferLength * 1000 * 2) / SampleRate` is evaluated
before the left buffer is asked: with `SampleRate = 0` this is an integer division by
zero, which is undefined and traps, so nothing is returned.  The right buffer is only
asked when the left one has succeeded. -/
def AllocateBuffer (setOk : List BlipCall → Int → Int → Bool) (s : CMixer)
    (BufferLength SampleRate _NrChannels : Nat) : Option (Bool × CMixer) :=
  let s1 := { s with m_iSampleRate := (SampleRate : Int) }
  if SampleRate = 0 then none
  else
    let rate : Int := wrap32 (SampleRate : Int)
    let msec : Int :=
      wrap32 (((BufferLength * 1000 % 4294967296 * 2 % 4294967296 / SampleRate : Nat)) : Int)
    let s2 := { s1 with
      BlipBufferLeft := s1.BlipBufferLeft ++ [BlipCall.set_sample_rate rate msec] }
    if setOk s1.BlipBufferLeft rate msec then
      some (setOk s2.BlipBufferRight rate msec,
        { s2 with
          BlipBufferRight := s2.BlipBufferRight ++ [BlipCall.set_sample_rate rate msec] })
    else some (false, s2)

/-- The method `SetClockRate(Rate)`. -/
def SetClockRate (s : CMixer) (Rate : Int) : CMixer :=
  { s with
    BlipBufferLeft := s.BlipBufferLeft ++ [BlipCall.clock_rate Rate]
    BlipBufferRight := s.BlipBufferRight ++ [BlipCall.clock_rate Rate] }

/-- The method `ClearBuffer()`. -/
def ClearBuffer (s : CMixer) : CMixer :=
  { s with
    BlipBufferLeft := s.BlipBufferLeft ++ [BlipCall.clear]
    BlipBufferRight := s.BlipBufferRight ++ [BlipCall.clear]
    m_dSumSS := 0
    m_dSumTND := 0 }

/-- The bass frequency a buffer is currently set to: its last `bass_freq` call. -/
def currentBass (log : List BlipCall) : Option Int :=
  log.foldl (fun acc c => match c with
    | BlipCall.bass_freq f => some f
    | _ => acc) none

/-- The treble equalization a synth is currently set to: its last `treble_eq` call. -/
def currentTreble (log : List SynthCall) : Option (Int × Int × Int) :=
  log.foldl (fun acc c => match c with
    | SynthCall.treble_eq a b r => some (a, b, r)
    | _ => acc) none

/-- The volume a synth is currently set to: its last `volume` call. -/
def currentVolume (log : List SynthCall) : Option F32 :=
  log.foldl (fun acc c => match c with
    | SynthCall.volume v => some v
    | _ => acc) none

/-- A call that changes the meter state, as data. -/
inductive MeterOp
  | addValue (ChanID Chip Left Right FrameCycles : Int)
  | storeChannelLevel (Channel Value : Int)
  | finishBuffer (t : Int)
  | clearChannelLevels
  deriving DecidableEq, Repr

/-- The mixer after one meter operation. -/
def applyOp (env : Env) (s : CMixer) : MeterOp → CMixer
  | MeterOp.addValue c chip l r t => AddValue env s c chip l r t
  | MeterOp.storeChannelLevel c v => StoreChannelLevel env s c v
  | MeterOp.finishBuffer t => FinishBuffer env s t
  | MeterOp.clearChannelLevels => ClearChannelLevels s

/-- The mixer after a sequence of meter operations. -/
def runOps (env : Env) (s : CMixer) (ops : List MeterOp) : CMixer :=
  ops.foldl (applyOp env) s

/-- Sum of the magnitudes of the impulses a buffer has received. -/
def impulseSum (log : List BlipCall) : Int :=
  ((impulses log).map Prod.snd).sum

/-- Sum of a per-channel table over the three square channels and the noise channel. -/
def sumSN7 (env : Env) (a : Int → Int) : Int :=
  a env.CHANID_SQUARE1 + a env.CHANID_SQUARE2 + a env.CHANID_SQUARE3 + a env.CHANID_NOISE

/-- An event that addresses a square or noise channel only with the default chip. -/
def Event.defaultOnSN7 (env : Env) (e : Event) : Prop :=
  isSN7Channel env e.ChanID = true → e.Chip = env.SNDCHIP_NONE

/-- An event whose two amplitudes are below `2^23` in magnitude. -/
def Event.small (e : Event) : Prop :=
  (-8388608 < e.Left ∧ e.Left < 8388608) ∧ (-8388608 < e.Right ∧ e.Right < 8388608)

instance (env : Env) (e : Event) : Decidable (e.defaultOnSN7 env) := by
  unfold Event.defaultOnSN7; infer_instance

instance (e : Event) : Decidable e.small := by
  unfold Event.small; infer_instance

end CMixer

/-! ## Concrete data used by the examples -/

/-- A descending 16-entry volume table (step 15 is silence). -/
def sampleTable : List Int :=
  [1516, 1205, 957, 760, 603, 479, 381, 303, 240, 191, 152, 120, 96, 76, 60, 0]

/-- An environment with the four SN76489 channels numbered 0 to 3, one further
channel, and the default chip numbered 0. -/
def sampleEnv : Env where
  CHANNELS := 5
  CHANID_SQUARE1 := 0
  CHANID_SQUARE2 := 1
  CHANID_SQUARE3 := 2
  CHANID_NOISE := 3
  SNDCHIP_NONE := 0
  VOLUME_TABLE := fun i => sampleTable.getD i 0

/-- The mixer after `SetChipLevel(CHIP_LEVEL_SN7Sep, 0.0f)`: no stereo separation. -/
def noSeparation : CMixer :=
  CMixer.SetChipLevel CMixer.new chip_level_t.CHIP_LEVEL_SN7Sep (F32.lit 0 1)

/-- The amplitude sequence `[0, 100, …]` on square channel 1, one `FinishBuffer` per
step, stopped right after the event of amplitude 100 has raised the meter. -/
def raisedMixer : CMixer :=
  CMixer.AddValue sampleEnv
    (CMixer.FinishBuffer sampleEnv (CMixer.AddValue sampleEnv CMixer.new 0 0 0 0 0) 200)
    0 0 100 100 0

/-- The rest of the sequence `[0, 100, 0, 0, 0, 0]`: the `FinishBuffer` of step 2, then
four steps with a zero-amplitude event each. -/
def quietFrames : List (List CMixer.Event × Int) :=
  [([], 200), ([⟨0, 0, 0, 0, 0⟩], 200), ([⟨0, 0, 0, 0, 0⟩], 200),
    ([⟨0, 0, 0, 0, 0⟩], 200), ([⟨0, 0, 0, 0, 0⟩], 200)]

/-- A buffer library that can size a buffer at the rates from 1 Hz to 99999 Hz. -/
def sampleSetOk (_buf : List BlipCall) (rate _msec : Int) : Bool :=
  decide (0 < rate ∧ rate < 100000)

/-- The float next above `1.0f`: `1 + 2^-23`. -/
def justAboveOne : F32 := F32.lit 8388609 8388608

/-- The float `2^-24`. -/
def tinyLevel : F32 := F32.lit 1 16777216

/-- A mixer whose square channel 1 shows level `15.0f` with no hold left: the level
was raised by the amplitude 1516, then three frames have passed. -/
def loudMixer : CMixer :=
  CMixer.FinishBuffer sampleEnv
    (CMixer.FinishBuffer sampleEnv
      (CMixer.FinishBuffer sampleEnv (CMixer.StoreChannelLevel sampleEnv CMixer.new 0 1516) 200)
      200)
    200

/-! ## Verified properties -/

open CMixer

set_option maxRecDepth 2000

theorem wrap32_zero : wrap32 0 = 0 := by decide

theorem wrap32_of_I32 {x : Int} (h : I32 x) : wrap32 x = x := by
  unfold I32 at h; unfold wrap32; omega

theorem wrap32_sub_eq_zero {a b : Int} (ha : I32 a) (hb : I32 b) (h : wrap32 (a - b) = 0) :
    a = b := by
  unfold I32 at ha hb; unfold wrap32 at h; omega

@[simp] theorem setAt_same {α : Type} (a : Int → α) (i : Int) (v : α) : setAt a i v i = v := by
  simp [setAt]

theorem setAt_other {α : Type} (a : Int → α) {i j : Int} (v : α) (h : j ≠ i) :
    setAt a i v j = a j := by
  simp [setAt, h]

namespace CMixer

/-! ### What `StoreChannelLevel` leaves alone -/

@[simp] theorem StoreChannelLevel_left (env : Env) (s : CMixer) (c v : Int) :
    (StoreChannelLevel env s c v).m_iChannelsLeft = s.m_iChannelsLeft := by
  unfold StoreChannelLevel; dsimp only; split <;> rfl

@[simp] theorem StoreChannelLevel_right (env : Env) (s : CMixer) (c v : Int) :
    (StoreChannelLevel env s c v).m_iChannelsRight = s.m_iChannelsRight := by
  unfold StoreChannelLevel; dsimp only; split <;> rfl

@[simp] theorem StoreChannelLevel_bufL (env : Env) (s : CMixer) (c v : Int) :
    (StoreChannelLevel env s c v).BlipBufferLeft = s.BlipBufferLeft := by
  unfold StoreChannelLevel; dsimp only; split <;> rfl

@[simp] theorem StoreChannelLevel_bufR (env : Env) (s : CMixer) (c v : Int) :
    (StoreChannelLevel env s c v).BlipBufferRight = s.BlipBufferRight := by
  unfold StoreChannelLevel; dsimp only; split <;> rfl

@[simp] theorem StoreChannelLevel_sepHi (env : Env) (s : CMixer) (c v : Int) :
    (StoreChannelLevel env s c v).m_fLevelSN7SepHi = s.m_fLevelSN7SepHi := by
  unfold StoreChannelLevel; dsimp only; split <;> rfl

@[simp] theorem StoreChannelLevel_sepLo (env : Env) (s : CMixer) (c v : Int) :
    (StoreChannelLevel env s c v).m_fLevelSN7SepLo = s.m_fLevelSN7SepLo := by
  unfold StoreChannelLevel; dsimp only; split <;> rfl

/-! ### The two halves of `AddValue` -/

@[simp] theorem addLeft_right (env : Env) (s : CMixer) (c chip L t : Int) :
    (addLeft env s c chip L t).m_iChannelsRight = s.m_iChannelsRight := by
  unfold addLeft; dsimp only; split_ifs <;> rfl

@[simp] theorem addLeft_levels (env : Env) (s : CMixer) (c chip L t : Int) :
    (addLeft env s c chip L t).m_fChannelLevels = s.m_fChannelLevels := by
  unfold addLeft; dsimp only; split_ifs <;> rfl

@[simp] theorem addLeft_fallOff (env : Env) (s : CMixer) (c chip L t : Int) :
    (addLeft env s c chip L t).m_iChanLevelFallOff = s.m_iChanLevelFallOff := by
  unfold addLeft; dsimp only; split_ifs <;> rfl

@[simp] theorem addLeft_sepHi (env : Env) (s : CMixer) (c chip L t : Int) :
    (addLeft env s c chip L t).m_fLevelSN7SepHi = s.m_fLevelSN7SepHi := by
  unfold addLeft; dsimp only; split_ifs <;> rfl

@[simp] theorem addLeft_sepLo (env : Env) (s : CMixer) (c chip L t : Int) :
    (addLeft env s c chip L t).m_fLevelSN7SepLo = s.m_fLevelSN7SepLo := by
  unfold addLeft; dsimp only; split_ifs <;> rfl

@[simp] theorem addRight_left (env : Env) (s : CMixer) (c chip R t : Int) :
    (addRight env s c chip R t).m_iChannelsLeft = s.m_iChannelsLeft := by
  unfold addRight; dsimp only; split_ifs <;> rfl

@[simp] theorem addRight_levels (env : Env) (s : CMixer) (c chip R t : Int) :
    (addRight env s c chip R t).m_fChannelLevels = s.m_fChannelLevels := by
  unfold addRight; dsimp only; split_ifs <;> rfl

@[simp] theorem addRight_fallOff (env : Env) (s : CMixer) (c chip R t : Int) :
    (addRight env s c chip R t).m_iChanLevelFallOff = s.m_iChanLevelFallOff := by
  unfold addRight; dsimp only; split_ifs <;> rfl

/-- After the left half, the stored left amplitude differs from `L` by a zero delta. -/
theorem addLeft_delta_zero (env : Env) (s : CMixer) (c chip L t : Int) :
    wrap32 (L - (addLeft env s c chip L t).m_iChannelsLeft c) = 0 := by
  unfold addLeft; dsimp only
  split_ifs with h1 h2
  · simp [wrap32_zero]
  · simp [wrap32_zero]
  · simpa using h1

theorem addRight_delta_zero (env : Env) (s : CMixer) (c chip R t : Int) :
    wrap32 (R - (addRight env s c chip R t).m_iChannelsRight c) = 0 := by
  unfold addRight; dsimp only
  split_ifs with h1 h2
  · simp [wrap32_zero]
  · simp [wrap32_zero]
  · simpa using h1

/-- A half of `AddValue` whose delta is zero does nothing. -/
theorem addLeft_of_zero (env : Env) (s : CMixer) (c chip L t : Int)
    (h : wrap32 (L - s.m_iChannelsLeft c) = 0) : addLeft env s c chip L t = s := by
  unfold addLeft; simp [h]

theorem addRight_of_zero (env : Env) (s : CMixer) (c chip R t : Int)
    (h : wrap32 (R - s.m_iChannelsRight c) = 0) : addRight env s c chip R t = s := by
  unfold addRight; simp [h]

/-- C1. Delta-only emission: after `AddValue(ch, c1, L, R, t1)`, a second call
`AddValue(ch, c2, L, R, t2)` with the same amplitudes sends nothing to the left buffer
and nothing to the right buffer (their call logs, hence their impulses, are unchanged). -/
theorem AddValue_repeat_no_impulse (env : Env) (s : CMixer) (ch c1 c2 L R t1 t2 : Int) :
    (AddValue env (AddValue env s ch c1 L R t1) ch c2 L R t2).BlipBufferLeft
        = (AddValue env s ch c1 L R t1).BlipBufferLeft ∧
    (AddValue env (AddValue env s ch c1 L R t1) ch c2 L R t2).BlipBufferRight
        = (AddValue env s ch c1 L R t1).BlipBufferRight := by
  have hl : wrap32 (L - (AddValue env s ch c1 L R t1).m_iChannelsLeft ch) = 0 := by
    unfold AddValue; simp only [addRight_left]; exact addLeft_delta_zero _ _ _ _ _ _
  have hr : wrap32 (R - (AddValue env s ch c1 L R t1).m_iChannelsRight ch) = 0 := by
    unfold AddValue; exact addRight_delta_zero _ _ _ _ _ _
  generalize AddValue env s ch c1 L R t1 = s1 at hl hr
  have h2 : AddValue env s1 ch c2 L R t2 = StoreChannelLevel env s1 ch (combinedLevel L R) := by
    unfold AddValue; dsimp only
    rw [addLeft_of_zero _ _ _ _ _ _ (by simpa using hl)]
    rw [addRight_of_zero _ _ _ _ _ _ (by simpa using hr)]
  rw [h2]; simp


/-! ### `AddValue`, field by field -/

theorem addLeft_left (env : Env) (s : CMixer) (c chip L t : Int) :
    (addLeft env s c chip L t).m_iChannelsLeft =
      if wrap32 (L - s.m_iChannelsLeft c) ≠ 0 then setAt s.m_iChannelsLeft c L
      else s.m_iChannelsLeft := by
  unfold addLeft; dsimp only; split_ifs <;> rfl

theorem addRight_right (env : Env) (s : CMixer) (c chip R t : Int) :
    (addRight env s c chip R t).m_iChannelsRight =
      if wrap32 (R - s.m_iChannelsRight c) ≠ 0 then setAt s.m_iChannelsRight c R
      else s.m_iChannelsRight := by
  unfold addRight; dsimp only; split_ifs <;> rfl

theorem addLeft_bufL (env : Env) (s : CMixer) (c chip L t : Int) :
    (addLeft env s c chip L t).BlipBufferLeft = s.BlipBufferLeft ++
      (if wrap32 (L - s.m_iChannelsLeft c) ≠ 0 ∧ routed env c chip = true then
        [BlipCall.offset t (F32.toInt (F32.mul (F32.ofInt (wrap32 (L - s.m_iChannelsLeft c)))
          s.m_fLevelSN7SepHi))]
      else []) := by
  unfold addLeft; dsimp only; split_ifs <;> simp_all

theorem addLeft_bufR (env : Env) (s : CMixer) (c chip L t : Int) :
    (addLeft env s c chip L t).BlipBufferRight = s.BlipBufferRight ++
      (if wrap32 (L - s.m_iChannelsLeft c) ≠ 0 ∧ routed env c chip = true then
        [BlipCall.offset t (F32.toInt (F32.mul (F32.ofInt (wrap32 (L - s.m_iChannelsLeft c)))
          s.m_fLevelSN7SepLo))]
      else []) := by
  unfold addLeft; dsimp only; split_ifs <;> simp_all

theorem addRight_bufL (env : Env) (s : CMixer) (c chip R t : Int) :
    (addRight env s c chip R t).BlipBufferLeft = s.BlipBufferLeft ++
      (if wrap32 (R - s.m_iChannelsRight c) ≠ 0 ∧ routed env c chip = true then
        [BlipCall.offset t (F32.toInt (F32.mul (F32.ofInt (wrap32 (R - s.m_iChannelsRight c)))
          s.m_fLevelSN7SepLo))]
      else []) := by
  unfold addRight; dsimp only; split_ifs <;> simp_all

theorem addRight_bufR (env : Env) (s : CMixer) (c chip R t : Int) :
    (addRight env s c chip R t).BlipBufferRight = s.BlipBufferRight ++
      (if wrap32 (R - s.m_iChannelsRight c) ≠ 0 ∧ routed env c chip = true then
        [BlipCall.offset t (F32.toInt (F32.mul (F32.ofInt (wrap32 (R - s.m_iChannelsRight c)))
          s.m_fLevelSN7SepHi))]
      else []) := by
  unfold addRight; dsimp only; split_ifs <;> simp_all

theorem AddValue_left (env : Env) (s : CMixer) (c chip L R t : Int) :
    (AddValue env s c chip L R t).m_iChannelsLeft =
      if wrap32 (L - s.m_iChannelsLeft c) ≠ 0 then setAt s.m_iChannelsLeft c L
      else s.m_iChannelsLeft := by
  simp [AddValue, addLeft_left]

theorem AddValue_right (env : Env) (s : CMixer) (c chip L R t : Int) :
    (AddValue env s c chip L R t).m_iChannelsRight =
      if wrap32 (R - s.m_iChannelsRight c) ≠ 0 then setAt s.m_iChannelsRight c R
      else s.m_iChannelsRight := by
  simp [AddValue, addRight_right]

theorem AddValue_levels (env : Env) (s : CMixer) (c chip L R t : Int) :
    (AddValue env s c chip L R t).m_fChannelLevels =
      (StoreChannelLevel env s c (combinedLevel L R)).m_fChannelLevels := by
  simp [AddValue]

theorem AddValue_fallOff (env : Env) (s : CMixer) (c chip L R t : Int) :
    (AddValue env s c chip L R t).m_iChanLevelFallOff =
      (StoreChannelLevel env s c (combinedLevel L R)).m_iChanLevelFallOff := by
  simp [AddValue]

theorem AddValue_bufL (env : Env) (s : CMixer) (c chip L R t : Int) :
    (AddValue env s c chip L R t).BlipBufferLeft = s.BlipBufferLeft ++
      (if wrap32 (L - s.m_iChannelsLeft c) ≠ 0 ∧ routed env c chip = true then
        [BlipCall.offset t (F32.toInt (F32.mul (F32.ofInt (wrap32 (L - s.m_iChannelsLeft c)))
          s.m_fLevelSN7SepHi))]
      else []) ++
      (if wrap32 (R - s.m_iChannelsRight c) ≠ 0 ∧ routed env c chip = true then
        [BlipCall.offset t (F32.toInt (F32.mul (F32.ofInt (wrap32 (R - s.m_iChannelsRight c)))
          s.m_fLevelSN7SepLo))]
      else []) := by
  simp only [AddValue, addRight_bufL, addLeft_bufL, addLeft_right, addLeft_sepLo,
    StoreChannelLevel_left, StoreChannelLevel_right, StoreChannelLevel_bufL,
    StoreChannelLevel_sepHi, StoreChannelLevel_sepLo]

theorem AddValue_bufR (env : Env) (s : CMixer) (c chip L R t : Int) :
    (AddValue env s c chip L R t).BlipBufferRight = s.BlipBufferRight ++
      (if wrap32 (L - s.m_iChannelsLeft c) ≠ 0 ∧ routed env c chip = true then
        [BlipCall.offset t (F32.toInt (F32.mul (F32.ofInt (wrap32 (L - s.m_iChannelsLeft c)))
          s.m_fLevelSN7SepLo))]
      else []) ++
      (if wrap32 (R - s.m_iChannelsRight c) ≠ 0 ∧ routed env c chip = true then
        [BlipCall.offset t (F32.toInt (F32.mul (F32.ofInt (wrap32 (R - s.m_iChannelsRight c)))
          s.m_fLevelSN7SepHi))]
      else []) := by
  simp only [AddValue, addRight_bufR, addLeft_bufR, addLeft_right, addLeft_sepHi,
    StoreChannelLevel_left, StoreChannelLevel_right, StoreChannelLevel_bufR,
    StoreChannelLevel_sepHi, StoreChannelLevel_sepLo]

theorem AddValue_sepHi (env : Env) (s : CMixer) (c chip L R t : Int) :
    (AddValue env s c chip L R t).m_fLevelSN7SepHi = s.m_fLevelSN7SepHi := by
  unfold AddValue addRight; dsimp only; split_ifs <;> simp

theorem AddValue_sepLo (env : Env) (s : CMixer) (c chip L R t : Int) :
    (AddValue env s c chip L R t).m_fLevelSN7SepLo = s.m_fLevelSN7SepLo := by
  unfold AddValue addRight; dsimp only; split_ifs <;> simp

/-- C2. After `AddValue(ch, chip, L, R, t)`, whatever the chip, the stored left
amplitude of the channel is `L` and the stored right amplitude is `R`
(for `int` arguments and `int` contents of the two arrays). -/
theorem AddValue_stores_last (env : Env) (s : CMixer) (ch chip L R t : Int)
    (hL : I32 L) (hR : I32 R)
    (hl : I32 (s.m_iChannelsLeft ch)) (hr : I32 (s.m_iChannelsRight ch)) :
    (AddValue env s ch chip L R t).m_iChannelsLeft ch = L ∧
    (AddValue env s ch chip L R t).m_iChannelsRight ch = R := by
  rw [AddValue_left, AddValue_right]
  constructor
  · split_ifs with h
    · simp
    · exact (wrap32_sub_eq_zero hL hl (by simpa using h)).symm
  · split_ifs with h
    · simp
    · exact (wrap32_sub_eq_zero hR hr (by simpa using h)).symm


/-- C2: an instance on a new mixer. -/
theorem AddValue_stores_last_witness :
    (AddValue sampleEnv CMixer.new 0 0 200 (-50) 7).m_iChannelsLeft 0 = 200 ∧
    (AddValue sampleEnv CMixer.new 0 0 200 (-50) 7).m_iChannelsRight 0 = -50 :=
  AddValue_stores_last sampleEnv CMixer.new 0 0 200 (-50) 7
    (by decide) (by decide) (by decide) (by decide)

/-! ### Routed channels -/

theorem routed_iff (env : Env) (ch chip : Int) :
    routed env ch chip = true ↔ chip = env.SNDCHIP_NONE ∧ isSN7Channel env ch = true := by
  simp [routed]

theorem isSN7Channel_square1 (env : Env) : isSN7Channel env env.CHANID_SQUARE1 = true := by
  simp [isSN7Channel]

/-- C3, counterexample. With no stereo separation (both factors `0.5f`), a first
event of left amplitude 3 on square channel 1 puts one impulse into the left buffer,
and its magnitude is not `deltaLeft × sepHigh = 3 × 0.5`. -/
theorem AddValue_impulse_is_not_product :
    ¬ ∃ m : Int,
      impulses (AddValue sampleEnv noSeparation 0 0 3 0 0).BlipBufferLeft = [(0, m)] ∧
      (m : ℚ) = (((3 : Int) - noSeparation.m_iChannelsLeft 0 : Int) : ℚ)
        * F32.toRat noSeparation.m_fLevelSN7SepHi := by
  rintro ⟨m, h1, h2⟩
  have hb : impulses (AddValue sampleEnv noSeparation 0 0 3 0 0).BlipBufferLeft = [(0, 1)] := by
    rw [AddValue_bufL]; decide
  have hs : noSeparation.m_fLevelSN7SepHi = ((2 ^ 148 : Nat) : Int) := by decide
  have hz : noSeparation.m_iChannelsLeft 0 = 0 := by decide
  rw [hb] at h1
  have hm : m = 1 := by
    have := List.head_eq_of_cons_eq h1
    exact (congrArg Prod.snd this).symm
  rw [hs, hz, hm] at h2
  norm_num [F32.toRat] at h2

/-- C3, amended. For a routed channel (default chip, square or noise channel) and
deltas `L - lastLeft`, `R - lastRight` that fit an `int`: a nonzero left delta sends
one impulse to the left buffer of magnitude `(int)(deltaLeft * sepHigh)` and one to
the right buffer of magnitude `(int)(deltaLeft * sepLow)`, then a nonzero right delta
sends `(int)(deltaRight * sepLow)` to the left and `(int)(deltaRight * sepHigh)` to
the right buffer, all at time `t`; the products are single-precision and truncated
toward zero, and nothing else is sent to either buffer. -/
theorem AddValue_routed_impulses (env : Env) (s : CMixer) (ch chip L R t : Int)
    (hchip : chip = env.SNDCHIP_NONE) (hch : isSN7Channel env ch = true)
    (hdl : I32 (L - s.m_iChannelsLeft ch)) (hdr : I32 (R - s.m_iChannelsRight ch)) :
    (AddValue env s ch chip L R t).BlipBufferLeft = s.BlipBufferLeft ++
      (if L - s.m_iChannelsLeft ch ≠ 0 then
        [BlipCall.offset t (F32.toInt (F32.mul (F32.ofInt (L - s.m_iChannelsLeft ch))
          s.m_fLevelSN7SepHi))] else []) ++
      (if R - s.m_iChannelsRight ch ≠ 0 then
        [BlipCall.offset t (F32.toInt (F32.mul (F32.ofInt (R - s.m_iChannelsRight ch))
          s.m_fLevelSN7SepLo))] else []) ∧
    (AddValue env s ch chip L R t).BlipBufferRight = s.BlipBufferRight ++
      (if L - s.m_iChannelsLeft ch ≠ 0 then
        [BlipCall.offset t (F32.toInt (F32.mul (F32.ofInt (L - s.m_iChannelsLeft ch))
          s.m_fLevelSN7SepLo))] else []) ++
      (if R - s.m_iChannelsRight ch ≠ 0 then
        [BlipCall.offset t (F32.toInt (F32.mul (F32.ofInt (R - s.m_iChannelsRight ch))
          s.m_fLevelSN7SepHi))] else []) := by
  have hr : routed env ch chip = true := (routed_iff env ch chip).2 ⟨hchip, hch⟩
  rw [AddValue_bufL, AddValue_bufR, wrap32_of_I32 hdl, wrap32_of_I32 hdr]
  simp [hr]

/-- C3, amended: an instance. -/
theorem AddValue_routed_impulses_witness :
    (AddValue sampleEnv noSeparation 0 0 3 (-5) 7).BlipBufferLeft =
      [BlipCall.offset 7 1, BlipCall.offset 7 (-2)] ∧
    (AddValue sampleEnv noSeparation 0 0 3 (-5) 7).BlipBufferRight =
      [BlipCall.offset 7 1, BlipCall.offset 7 (-2)] := by
  have h := AddValue_routed_impulses sampleEnv noSeparation 0 0 3 (-5) 7
    (by decide) (by decide) (by decide) (by decide)
  rw [h.1, h.2]
  decide


/-! ### The end-to-end scenario -/

theorem new_routed_step (env : Env) (s : CMixer) (L R t : Int) :
    (AddValue env s env.CHANID_SQUARE1 env.SNDCHIP_NONE L R t).BlipBufferLeft =
      s.BlipBufferLeft ++
      (if wrap32 (L - s.m_iChannelsLeft env.CHANID_SQUARE1) ≠ 0 then
        [BlipCall.offset t (F32.toInt (F32.mul
          (F32.ofInt (wrap32 (L - s.m_iChannelsLeft env.CHANID_SQUARE1))) s.m_fLevelSN7SepHi))]
      else []) ++
      (if wrap32 (R - s.m_iChannelsRight env.CHANID_SQUARE1) ≠ 0 then
        [BlipCall.offset t (F32.toInt (F32.mul
          (F32.ofInt (wrap32 (R - s.m_iChannelsRight env.CHANID_SQUARE1))) s.m_fLevelSN7SepLo))]
      else []) ∧
    (AddValue env s env.CHANID_SQUARE1 env.SNDCHIP_NONE L R t).BlipBufferRight =
      s.BlipBufferRight ++
      (if wrap32 (L - s.m_iChannelsLeft env.CHANID_SQUARE1) ≠ 0 then
        [BlipCall.offset t (F32.toInt (F32.mul
          (F32.ofInt (wrap32 (L - s.m_iChannelsLeft env.CHANID_SQUARE1))) s.m_fLevelSN7SepLo))]
      else []) ++
      (if wrap32 (R - s.m_iChannelsRight env.CHANID_SQUARE1) ≠ 0 then
        [BlipCall.offset t (F32.toInt (F32.mul
          (F32.ofInt (wrap32 (R - s.m_iChannelsRight env.CHANID_SQUARE1))) s.m_fLevelSN7SepHi))]
      else []) := by
  have hr : routed env env.CHANID_SQUARE1 env.SNDCHIP_NONE = true :=
    (routed_iff _ _ _).2 ⟨rfl, isSN7Channel_square1 env⟩
  rw [AddValue_bufL, AddValue_bufR]
  simp [hr]

/-- The two buffer logs after the scenario `AddValue(SQUARE1, default, 200, 200, 0)`,
`AddValue(SQUARE1, default, 0, 0, 100)` on a new mixer. -/
theorem scenario_logs (env : Env) :
    (AddValue env (AddValue env CMixer.new env.CHANID_SQUARE1 env.SNDCHIP_NONE 200 200 0)
        env.CHANID_SQUARE1 env.SNDCHIP_NONE 0 0 100).BlipBufferLeft =
      [BlipCall.offset 0 200, BlipCall.offset 0 0,
        BlipCall.offset 100 (-200), BlipCall.offset 100 0] ∧
    (AddValue env (AddValue env CMixer.new env.CHANID_SQUARE1 env.SNDCHIP_NONE 200 200 0)
        env.CHANID_SQUARE1 env.SNDCHIP_NONE 0 0 100).BlipBufferRight =
      [BlipCall.offset 0 0, BlipCall.offset 0 200,
        BlipCall.offset 100 0, BlipCall.offset 100 (-200)] := by
  have e1 : wrap32 200 = 200 := by decide
  have e2 : wrap32 (-200) = -200 := by decide
  have m1 : F32.toInt (F32.mul (F32.ofInt 200) (F32.lit 1 1)) = 200 := by decide
  have m2 : F32.toInt (F32.mul (F32.ofInt 200) (F32.lit 0 1)) = 0 := by decide
  have m3 : F32.toInt (F32.mul (F32.ofInt (-200)) (F32.lit 1 1)) = -200 := by decide
  have m4 : F32.toInt (F32.mul (F32.ofInt (-200)) (F32.lit 0 1)) = 0 := by decide
  have h2 := new_routed_step env
    (AddValue env CMixer.new env.CHANID_SQUARE1 env.SNDCHIP_NONE 200 200 0) 0 0 100
  have h1 := new_routed_step env CMixer.new 200 200 0
  rw [h2.1, h2.2, h1.1, h1.2, AddValue_left, AddValue_right, AddValue_sepHi, AddValue_sepLo]
  simp [CMixer.new, e1, e2, m1, m2, m3, m4]

/-- C4, counterexample. In the end-to-end scenario on a new mixer the buffers do not
record exactly two impulses each. -/
theorem scenario_not_two_impulses :
    ¬ ((impulses (AddValue sampleEnv (AddValue sampleEnv CMixer.new 0 0 200 200 0)
          0 0 0 0 100).BlipBufferLeft).length = 2 ∧
       (impulses (AddValue sampleEnv (AddValue sampleEnv CMixer.new 0 0 200 200 0)
          0 0 0 0 100).BlipBufferRight).length = 2) := by
  have h := scenario_logs sampleEnv
  have hl : (AddValue sampleEnv (AddValue sampleEnv CMixer.new 0 0 200 200 0)
      0 0 0 0 100).BlipBufferLeft = [BlipCall.offset 0 200, BlipCall.offset 0 0,
        BlipCall.offset 100 (-200), BlipCall.offset 100 0] := h.1
  rw [hl]
  decide

/-- C4, amended. On a new mixer (default separation), `AddValue(SQUARE1, default,
200, 200, 0)` followed by `AddValue(SQUARE1, default, 0, 0, 100)` records exactly four
impulses in each buffer: in the left buffer `+200` and `0` at time 0, `-200` and `0`
at time 100; in the right buffer `0` and `+200` at time 0, `0` and `-200` at time 100.
Exactly two impulses per buffer are nonzero, one rising and one falling. -/
theorem scenario_impulses (env : Env) :
    impulses (AddValue env (AddValue env CMixer.new env.CHANID_SQUARE1 env.SNDCHIP_NONE
        200 200 0) env.CHANID_SQUARE1 env.SNDCHIP_NONE 0 0 100).BlipBufferLeft =
      [(0, 200), (0, 0), (100, -200), (100, 0)] ∧
    impulses (AddValue env (AddValue env CMixer.new env.CHANID_SQUARE1 env.SNDCHIP_NONE
        200 200 0) env.CHANID_SQUARE1 env.SNDCHIP_NONE 0 0 100).BlipBufferRight =
      [(0, 0), (0, 200), (100, 0), (100, -200)] ∧
    (impulses (AddValue env (AddValue env CMixer.new env.CHANID_SQUARE1 env.SNDCHIP_NONE
        200 200 0) env.CHANID_SQUARE1 env.SNDCHIP_NONE 0 0 100).BlipBufferLeft).filter
        (fun p => p.2 ≠ 0) = [(0, 200), (100, -200)] ∧
    (impulses (AddValue env (AddValue env CMixer.new env.CHANID_SQUARE1 env.SNDCHIP_NONE
        200 200 0) env.CHANID_SQUARE1 env.SNDCHIP_NONE 0 0 100).BlipBufferRight).filter
        (fun p => p.2 ≠ 0) = [(0, 200), (100, -200)] := by
  rw [(scenario_logs env).1, (scenario_logs env).2]
  decide


/-! ### Unrouted chip and channel combinations -/

/-- C5. When the chip is not the default chip, or the channel is not a square or
noise channel, `AddValue` sends nothing to either buffer, while the stored amplitudes
become `L` and `R`, the meter level and hold are those `StoreChannelLevel` computes
from the combined magnitude, and all four channel tables are the ones the same call
with the default chip produces. -/
theorem AddValue_unrouted (env : Env) (s : CMixer) (ch chip L R t : Int)
    (h : chip ≠ env.SNDCHIP_NONE ∨ isSN7Channel env ch = false)
    (hL : I32 L) (hR : I32 R)
    (hl : I32 (s.m_iChannelsLeft ch)) (hr : I32 (s.m_iChannelsRight ch)) :
    (AddValue env s ch chip L R t).BlipBufferLeft = s.BlipBufferLeft ∧
    (AddValue env s ch chip L R t).BlipBufferRight = s.BlipBufferRight ∧
    (AddValue env s ch chip L R t).m_iChannelsLeft ch = L ∧
    (AddValue env s ch chip L R t).m_iChannelsRight ch = R ∧
    (AddValue env s ch chip L R t).m_fChannelLevels =
      (StoreChannelLevel env s ch (combinedLevel L R)).m_fChannelLevels ∧
    (AddValue env s ch chip L R t).m_iChanLevelFallOff =
      (StoreChannelLevel env s ch (combinedLevel L R)).m_iChanLevelFallOff ∧
    (AddValue env s ch chip L R t).m_iChannelsLeft =
      (AddValue env s ch env.SNDCHIP_NONE L R t).m_iChannelsLeft ∧
    (AddValue env s ch chip L R t).m_iChannelsRight =
      (AddValue env s ch env.SNDCHIP_NONE L R t).m_iChannelsRight ∧
    (AddValue env s ch chip L R t).m_fChannelLevels =
      (AddValue env s ch env.SNDCHIP_NONE L R t).m_fChannelLevels ∧
    (AddValue env s ch chip L R t).m_iChanLevelFallOff =
      (AddValue env s ch env.SNDCHIP_NONE L R t).m_iChanLevelFallOff := by
  have hr0 : ¬ routed env ch chip = true := by
    rw [routed_iff]; rintro ⟨h1, h2⟩
    rcases h with h | h
    · exact h h1
    · rw [h2] at h; exact Bool.noConfusion h
  have hlast : (AddValue env s ch chip L R t).m_iChannelsLeft ch = L ∧
      (AddValue env s ch chip L R t).m_iChannelsRight ch = R := by
    rw [AddValue_left, AddValue_right]
    constructor
    · split_ifs with h
      · simp
      · exact (wrap32_sub_eq_zero hL hl (by simpa using h)).symm
    · split_ifs with h
      · simp
      · exact (wrap32_sub_eq_zero hR hr (by simpa using h)).symm
  refine ⟨?_, ?_, hlast.1, hlast.2, AddValue_levels _ _ _ _ _ _ _, AddValue_fallOff _ _ _ _ _ _ _,
    ?_, ?_, ?_, ?_⟩
  · rw [AddValue_bufL]; simp [hr0]
  · rw [AddValue_bufR]; simp [hr0]
  · rw [AddValue_left, AddValue_left]
  · rw [AddValue_right, AddValue_right]
  · rw [AddValue_levels, AddValue_levels]
  · rw [AddValue_fallOff, AddValue_fallOff]

/-- C5: two instances, a foreign chip on square channel 1 and the default chip on a
channel that is neither square nor noise. -/
theorem AddValue_unrouted_witness :
    ((AddValue sampleEnv CMixer.new 0 1 200 (-50) 7).BlipBufferLeft = [] ∧
      (AddValue sampleEnv CMixer.new 0 1 200 (-50) 7).m_iChannelsLeft 0 = 200) ∧
    ((AddValue sampleEnv CMixer.new 4 0 200 (-50) 7).BlipBufferRight = [] ∧
      (AddValue sampleEnv CMixer.new 4 0 200 (-50) 7).m_iChannelsRight 4 = -50) := by
  have h1 := AddValue_unrouted sampleEnv CMixer.new 0 1 200 (-50) 7
    (Or.inl (by decide)) (by decide) (by decide) (by decide) (by decide)
  have h2 := AddValue_unrouted sampleEnv CMixer.new 4 0 200 (-50) 7
    (Or.inr (by decide)) (by decide) (by decide) (by decide) (by decide)
  exact ⟨⟨h1.1, h1.2.2.1⟩, ⟨h2.2.1, h2.2.2.2.1⟩⟩


/-! ### The level meter: `StoreChannelLevel` -/

/-- C6. Raise rule of `StoreChannelLevel`: with `lvl` the level of the value (the
table level for square and noise channels, the magnitude otherwise, converted to
float), if `lvl >= level` the stored level becomes `lvl` and the hold counter becomes
the delay constant 3; otherwise both are unchanged.  The stored level never gets lower. -/
theorem StoreChannelLevel_raise (env : Env) (s : CMixer) (ch v : Int) :
    (if F32.ofInt (levelOf env ch v) ≥ s.m_fChannelLevels ch then
      (StoreChannelLevel env s ch v).m_fChannelLevels ch = F32.ofInt (levelOf env ch v) ∧
      (StoreChannelLevel env s ch v).m_iChanLevelFallOff ch = LEVEL_FALL_OFF_DELAY
    else
      (StoreChannelLevel env s ch v).m_fChannelLevels ch = s.m_fChannelLevels ch ∧
      (StoreChannelLevel env s ch v).m_iChanLevelFallOff ch = s.m_iChanLevelFallOff ch) ∧
    LEVEL_FALL_OFF_DELAY = 3 ∧
    s.m_fChannelLevels ch ≤ (StoreChannelLevel env s ch v).m_fChannelLevels ch := by
  unfold StoreChannelLevel; dsimp only
  split_ifs with h
  · exact ⟨⟨by simp, by simp⟩, rfl, by simpa using h⟩
  · exact ⟨⟨rfl, rfl⟩, rfl, le_refl _⟩

/-- The loop of `StoreChannelLevel`, started at `a` with enough fuel, stops at the
first `r ≥ a` that is 15 or whose table entry exceeds `Lv`. -/
theorem levelLoop_spec (T : Nat → Int) (Lv : Int) :
    ∀ (fuel a : Nat), a ≤ 15 → 15 ≤ a + fuel →
      a ≤ levelLoop T Lv fuel a ∧ levelLoop T Lv fuel a ≤ 15 ∧
      (∀ w, a ≤ w → w < levelLoop T Lv fuel a → T (14 - w) ≤ Lv) ∧
      (levelLoop T Lv fuel a = 15 ∨ Lv < T (14 - levelLoop T Lv fuel a)) := by
  intro fuel
  induction fuel with
  | zero =>
    intro a h1 h2
    have : a = 15 := by omega
    subst this
    have e : levelLoop T Lv 0 15 = 15 := rfl
    rw [e]
    exact ⟨le_refl _, le_refl _, fun w h3 h4 => by omega, Or.inl rfl⟩
  | succ f ih =>
    intro a h1 h2
    simp only [levelLoop]
    split_ifs with h
    · obtain ⟨i1, i2, i3, i4⟩ := ih (a + 1) (by omega) (by omega)
      refine ⟨by omega, i2, ?_, i4⟩
      intro w hw1 hw2
      rcases Nat.eq_or_lt_of_le hw1 with e | e
      · subst e; exact h.2
      · exact i3 w e hw2
    · refine ⟨le_refl _, h1, fun w h3 h4 => by omega, ?_⟩
      by_cases ha : a < 15
      · right
        have : ¬ Lv ≥ T (14 - a) := fun hc => h ⟨ha, hc⟩
        omega
      · left; omega

theorem levelOf_SN7 (env : Env) (ch v : Int) (hch : isSN7Channel env ch = true) :
    levelOf env ch v = (levelLoop env.VOLUME_TABLE (wrap32 |v|) 15 0 : Nat) := by
  simp [levelOf, hch]

theorem wrap32_abs {v : Int} (hv : -2147483648 < v ∧ v < 2147483648) : wrap32 |v| = |v| := by
  apply wrap32_of_I32
  unfold I32
  rcases abs_cases v with ⟨h1, h2⟩ | ⟨h1, h2⟩ <;> omega

/-- C7. Reverse lookup: for a square or noise channel, any table and any value whose
magnitude is an `int`, the level `StoreChannelLevel` uses is a number `n ≤ 15` such
that no index `w < n` has `|value| < VOLUME_TABLE[14 - w]`, and either `n = 15` or
`|value| < VOLUME_TABLE[14 - n]`: the smallest index with `|value| < VOLUME_TABLE[14 - n]`,
or the maximum level 15 when no index 0 … 14 has that property. -/
theorem levelOf_reverse_lookup (env : Env) (ch v : Int)
    (hch : isSN7Channel env ch = true) (hv : -2147483648 < v ∧ v < 2147483648) :
    ∃ n : Nat, levelOf env ch v = (n : Int) ∧ n ≤ 15 ∧
      (∀ w : Nat, w < n → ¬ |v| < env.VOLUME_TABLE (14 - w)) ∧
      (n = 15 ∨ |v| < env.VOLUME_TABLE (14 - n)) := by
  obtain ⟨_, h2, h3, h4⟩ := levelLoop_spec env.VOLUME_TABLE |v| 15 0 (by omega) (by omega)
  refine ⟨levelLoop env.VOLUME_TABLE |v| 15 0, ?_, h2, ?_, h4⟩
  · rw [levelOf_SN7 env ch v hch, wrap32_abs hv]
  · intro w hw
    have := h3 w (Nat.zero_le _) hw
    omega

/-- C7: an instance, amplitude -100 against the sample table gives level 3. -/
theorem levelOf_reverse_lookup_witness :
    ∃ n : Nat, levelOf sampleEnv 0 (-100) = (n : Int) ∧ n ≤ 15 ∧
      (∀ w : Nat, w < n → ¬ |(-100 : Int)| < sampleEnv.VOLUME_TABLE (14 - w)) ∧
      (n = 15 ∨ |(-100 : Int)| < sampleEnv.VOLUME_TABLE (14 - n)) :=
  levelOf_reverse_lookup sampleEnv 0 (-100) (by decide) (by decide)

/-- C8, counterexample. Against the sample table the amplitude 1516 on square
channel 1 gets level 15, which is outside `[0, 15)`. -/
theorem levelOf_not_below_15 :
    ¬ (0 ≤ levelOf sampleEnv 0 1516 ∧ levelOf sampleEnv 0 1516 < 15) := by
  decide

/-- C8, amended. For a square or noise channel, every table and every value, the
level that `StoreChannelLevel` substitutes for the magnitude lies in the closed range
`[0, 15]`. -/
theorem levelOf_range (env : Env) (ch v : Int) (hch : isSN7Channel env ch = true) :
    0 ≤ levelOf env ch v ∧ levelOf env ch v ≤ 15 := by
  obtain ⟨_, h2, _, _⟩ :=
    levelLoop_spec env.VOLUME_TABLE (wrap32 |v|) 15 0 (by omega) (by omega)
  rw [levelOf_SN7 env ch v hch]
  omega

/-- C8, amended: an instance where the bound 15 is attained. -/
theorem levelOf_range_witness :
    (0 ≤ levelOf sampleEnv 0 1516 ∧ levelOf sampleEnv 0 1516 ≤ 15) ∧
      levelOf sampleEnv 0 1516 = 15 :=
  ⟨levelOf_range sampleEnv 0 1516 (by decide), by decide⟩


/-! ### The level meter: `FinishBuffer` -/

theorem fallOff_levels_at (s : CMixer) (i : Int) :
    (fallOff s i).m_fChannelLevels i =
      fallenLevel (s.m_fChannelLevels i) (s.m_iChanLevelFallOff i) := by
  unfold fallOff fallenLevel; dsimp only
  split_ifs <;> simp

theorem fallOff_hold_at (s : CMixer) (i : Int) :
    (fallOff s i).m_iChanLevelFallOff i = fallenHold (s.m_iChanLevelFallOff i) := by
  unfold fallOff fallenHold; dsimp only
  split_ifs <;> simp

theorem fallOff_levels_other (s : CMixer) {i j : Int} (h : j ≠ i) :
    (fallOff s i).m_fChannelLevels j = s.m_fChannelLevels j := by
  unfold fallOff; dsimp only
  split_ifs <;> simp [setAt, h]

theorem fallOff_hold_other (s : CMixer) {i j : Int} (h : j ≠ i) :
    (fallOff s i).m_iChanLevelFallOff j = s.m_iChanLevelFallOff j := by
  unfold fallOff; dsimp only
  split_ifs <;> simp [setAt, h]

/-- The loop of `FinishBuffer` over the first `n` channels, channel by channel. -/
theorem fallOff_loop (s : CMixer) (ch : Int) (n : Nat) :
    ((List.range n).foldl (fun (st : CMixer) (i : Nat) => fallOff st (i : Int)) s).m_fChannelLevels ch =
      (if 0 ≤ ch ∧ ch < n then fallenLevel (s.m_fChannelLevels ch) (s.m_iChanLevelFallOff ch)
        else s.m_fChannelLevels ch) ∧
    ((List.range n).foldl (fun (st : CMixer) (i : Nat) => fallOff st (i : Int)) s).m_iChanLevelFallOff ch =
      (if 0 ≤ ch ∧ ch < n then fallenHold (s.m_iChanLevelFallOff ch)
        else s.m_iChanLevelFallOff ch) := by
  induction n with
  | zero =>
    have : ¬ (0 ≤ ch ∧ ch < ((0 : Nat) : Int)) := by omega
    rw [if_neg this, if_neg this]
    exact ⟨rfl, rfl⟩
  | succ n ih =>
    rw [List.range_succ, List.foldl_append]
    simp only [List.foldl_cons, List.foldl_nil]
    by_cases hc : ch = (n : Int)
    · have h1 : ¬ (0 ≤ ch ∧ ch < (n : Int)) := by omega
      have h2 : 0 ≤ ch ∧ ch < ((n + 1 : Nat) : Int) := by omega
      rw [if_neg h1] at ih
      rw [if_neg h1] at ih
      rw [if_pos h2, if_pos h2]
      subst hc
      rw [fallOff_levels_at, fallOff_hold_at, ih.1, ih.2]
      exact ⟨rfl, rfl⟩
    · rw [fallOff_levels_other _ hc, fallOff_hold_other _ hc, ih.1, ih.2]
      have h3 : (0 ≤ ch ∧ ch < ((n + 1 : Nat) : Int)) ↔ (0 ≤ ch ∧ ch < (n : Int)) := by omega
      simp only [h3, and_self]

theorem FinishBuffer_levels (env : Env) (s : CMixer) (t ch : Int) :
    (FinishBuffer env s t).m_fChannelLevels ch =
      if 0 ≤ ch ∧ ch < env.CHANNELS then
        fallenLevel (s.m_fChannelLevels ch) (s.m_iChanLevelFallOff ch)
      else s.m_fChannelLevels ch := by
  unfold FinishBuffer
  exact (fallOff_loop _ ch env.CHANNELS).1

theorem FinishBuffer_hold (env : Env) (s : CMixer) (t ch : Int) :
    (FinishBuffer env s t).m_iChanLevelFallOff ch =
      if 0 ≤ ch ∧ ch < env.CHANNELS then fallenHold (s.m_iChanLevelFallOff ch)
      else s.m_iChanLevelFallOff ch := by
  unfold FinishBuffer
  exact (fallOff_loop _ ch env.CHANNELS).2

theorem sub_rate_zero : F32.sub 0 LEVEL_FALL_OFF_RATE < 0 := by decide

/-- The value of the constant `0.6f`: `10066330 / 2^24`. -/
theorem LEVEL_FALL_OFF_RATE_eq : LEVEL_FALL_OFF_RATE = ((10066330 * 2 ^ 125 : Nat) : Int) := by
  decide

/-- On a non-negative level with the hold counter at zero the loop body computes
`max(0, level - 0.6f)`. -/
theorem fallenLevel_zero_hold {lvl : F32} (h : 0 ≤ lvl) :
    fallenLevel lvl 0 = max 0 (F32.sub lvl LEVEL_FALL_OFF_RATE) := by
  unfold fallenLevel
  simp only [gt_iff_lt, lt_self_iff_false, if_false]
  split_ifs with h1 h2
  · exact (max_eq_left (le_of_lt h2)).symm
  · exact (max_eq_right (not_lt.mp h2)).symm
  · have : lvl = 0 := le_antisymm (not_lt.mp h1) h
    subst this
    exact (max_eq_left (le_of_lt sub_rate_zero)).symm

/-- C9. Fall-off step of `FinishBuffer`, for every channel `0 ≤ ch < CHANNELS` of a
mixer whose level for that channel is non-negative, whatever happened to the channel
before: if the hold counter is positive it is decremented and the level is unchanged;
otherwise the hold counter stays 0 and the level becomes `max(0, level - 0.6f)`
(single-precision subtraction of the rate constant). -/
theorem FinishBuffer_fall_off (env : Env) (s : CMixer) (t ch : Int)
    (hch : 0 ≤ ch ∧ ch < env.CHANNELS) (hlvl : 0 ≤ s.m_fChannelLevels ch) :
    if s.m_iChanLevelFallOff ch > 0 then
      (FinishBuffer env s t).m_iChanLevelFallOff ch = s.m_iChanLevelFallOff ch - 1 ∧
      (FinishBuffer env s t).m_fChannelLevels ch = s.m_fChannelLevels ch
    else
      (FinishBuffer env s t).m_iChanLevelFallOff ch = 0 ∧
      (FinishBuffer env s t).m_fChannelLevels ch =
        max 0 (F32.sub (s.m_fChannelLevels ch) LEVEL_FALL_OFF_RATE) := by
  rw [FinishBuffer_levels, FinishBuffer_hold, if_pos hch, if_pos hch]
  split_ifs with h
  · constructor
    · simp [fallenHold, h]
    · simp [fallenLevel, h]
  · have h0 : s.m_iChanLevelFallOff ch = 0 := by omega
    rw [h0]
    exact ⟨by simp [fallenHold], fallenLevel_zero_hold hlvl⟩


end CMixer

/-! ### Rounding -/

namespace F32

theorem bitLenAux_le : ∀ (fuel n m : Nat), n < 2 ^ m → bitLenAux fuel n ≤ m := by
  intro fuel
  induction fuel with
  | zero => intro n m _; simp [bitLenAux]
  | succ f ih =>
    intro n m h
    simp only [bitLenAux]
    split_ifs with h0
    · exact Nat.zero_le _
    · cases m with
      | zero => simp at h; exact absurd h h0
      | succ m =>
        have : n / 2 < 2 ^ m := by
          rw [Nat.div_lt_iff_lt_mul (by norm_num)]
          rw [pow_succ] at h; exact h
        have := ih (n / 2) m this
        omega

theorem bitLen_le {n m : Nat} (h : n < 2 ^ m) : bitLen n ≤ m := bitLenAux_le n n m h

/-- Rounding to nearest moves a magnitude up by at most half a step. -/
theorem roundMag_le (a : Nat) : 2 * roundMag a 1 ≤ 2 * a + 2 ^ (bitLen a - 24) := by
  unfold roundMag
  simp only [Nat.div_one, one_mul]
  generalize 2 ^ (bitLen a - 24) = D
  have hd := Nat.div_add_mod a D
  have hm : D * (a / D) = a / D * D := Nat.mul_comm _ _
  split_ifs with h1 h2 h3
  · omega
  · rw [Nat.add_mul]; omega
  · omega
  · rw [Nat.add_mul]; omega

theorem rate_value : LEVEL_FALL_OFF_RATE = (428174324825906310364408964003578912503234560 : Int) := by
  decide

/-- Subtracting the fall-off rate from a positive level up to `2^24` gives a smaller level. -/
theorem sub_rate_lt {x : Int} (h0 : 0 < x)
    (hB : x ≤ 11972621413014756705924586149611790497021399392059392) :
    F32.sub x LEVEL_FALL_OFF_RATE < x := by
  rw [rate_value]
  unfold F32.sub F32.round
  generalize hy : x - 428174324825906310364408964003578912503234560 = y
  split_ifs with h
  · have hk : bitLen y.natAbs ≤ 173 := by
      apply bitLen_le
      have e3 : (2 : Nat) ^ 173 = 11972621413014756705924586149611790497021399392059392 := by
        norm_num
      rw [e3]
      omega
    have hr := roundMag_le y.natAbs
    have hp : 2 ^ (bitLen y.natAbs - 24) ≤ 2 ^ 149 :=
      Nat.pow_le_pow_right (by norm_num) (by omega)
    have e2 : (2 : Nat) ^ 149 = 713623846352979940529142984724747568191373312 := by norm_num
    rw [e2] at hp
    have hr2 := le_trans hr (Nat.add_le_add_left hp _)
    change @LT.lt Int _ _ _
    omega
  · have : (0 : Int) ≤ (roundMag y.natAbs 1 : Int) := Int.natCast_nonneg _
    change @LT.lt Int _ _ _
    omega

/-- A magnitude that is a multiple of its rounding step is not changed by rounding. -/
theorem roundMag_exact (a : Nat) (h : 2 ^ (bitLen a - 24) ∣ a) : roundMag a 1 = a := by
  unfold roundMag
  simp only [Nat.div_one, one_mul]
  generalize 2 ^ (bitLen a - 24) = D at h
  rcases Nat.eq_zero_or_pos D with hD | hD
  · subst hD; simp at h; subst h; simp
  · have hr : a % D = 0 := Nat.mod_eq_zero_of_dvd h
    rw [hr, if_pos (by omega)]
    exact Nat.div_mul_cancel h

/-- Integers of magnitude below `2^24` convert to float exactly. -/
theorem ofInt_exact (n : Int) (h : -16777216 < n ∧ n < 16777216) :
    F32.ofInt n = n * (unit : Int) := by
  have key : roundMag (n.natAbs * unit) 1 = n.natAbs * unit := by
    apply roundMag_exact
    have hlt : n.natAbs * unit < 2 ^ 173 := by
      have : n.natAbs < 2 ^ 24 := by norm_num; omega
      calc n.natAbs * unit < 2 ^ 24 * unit :=
            Nat.mul_lt_mul_of_pos_right this (by unfold unit; positivity)
        _ = 2 ^ 173 := by unfold unit; norm_num
    have hk := bitLen_le hlt
    have hd : 2 ^ (bitLen (n.natAbs * unit) - 24) ∣ unit := by
      generalize bitLen (n.natAbs * unit) = b at hk
      have hu149 : unit = 2 ^ 149 := rfl
      rw [hu149]
      exact Nat.pow_dvd_pow 2 (by omega)
    exact Dvd.dvd.mul_left hd _
  have habs : (n * (unit : Int)).natAbs = n.natAbs * unit := by
    rw [Int.natAbs_mul, Int.natAbs_ofNat]
  unfold F32.ofInt F32.round
  rw [habs, key]
  have hu : (0 : Int) < (unit : Int) := by unfold unit; positivity
  split_ifs with h0
  · have hn : 0 ≤ n := by
      by_contra hc
      have : n * (unit : Int) < 0 := mul_neg_of_neg_of_pos (by omega) hu
      omega
    push_cast
    rw [abs_of_nonneg hn]
  · have hn : n < 0 := by
      by_contra hc
      have : 0 ≤ n * (unit : Int) := mul_nonneg (by omega) (le_of_lt hu)
      exact h0 this
    push_cast
    rw [abs_of_neg hn]
    ring

end F32


namespace CMixer

/-! ### The range of the levels `AddValue` produces -/

theorem tdiv_two_lt (w : Int) (h : w < 2147483648) : Int.tdiv w 2 < 1073741824 := by
  rcases le_or_lt 0 w with hw | hw
  · rw [Int.tdiv_eq_ediv hw (by norm_num)]; omega
  · have h1 : (-w).tdiv 2 = -(w.tdiv 2) := Int.neg_tdiv _ _
    have h2 : 0 ≤ (-w).tdiv 2 := Int.tdiv_nonneg (by omega) (by norm_num)
    omega

/-- The level argument `AddValue` computes is at most 46340 (or is `INT_MIN`). -/
theorem combinedLevel_bound (L R : Int) :
    (0 ≤ combinedLevel L R ∧ combinedLevel L R ≤ 46340) ∨ combinedLevel L R = -2147483648 := by
  unfold combinedLevel intSqrt
  generalize hx : Int.tdiv (wrap32 (wrap32 (L * L) + wrap32 (R * R))) 2 = x
  split_ifs with h
  · left
    have hx2 : x < 1073741824 := by
      rw [← hx]
      apply tdiv_two_lt
      generalize wrap32 (L * L) + wrap32 (R * R) = w
      unfold wrap32; omega
    constructor
    · exact Int.natCast_nonneg _
    · have : Nat.sqrt x.toNat < 46341 := by
        rw [Nat.sqrt_lt']
        omega
      omega
  · right; rfl

/-- The float level `StoreChannelLevel` derives from the argument `AddValue` passes is
at most `2^24`. -/
theorem AddValue_level_arg_le (env : Env) (ch L R : Int) :
    F32.ofInt (levelOf env ch (combinedLevel L R)) ≤ F32.ofInt 16777216 := by
  have top : F32.ofInt 16777216 = 16777216 * (F32.unit : Int) := by decide
  have hu : (0 : Int) < (F32.unit : Int) := by unfold F32.unit; positivity
  have small : ∀ n : Int, 0 ≤ n → n ≤ 46340 → F32.ofInt n ≤ F32.ofInt 16777216 := by
    intro n h1 h2
    rw [F32.ofInt_exact n (by omega), top]
    exact mul_le_mul_of_nonneg_right (show @LE.le Int _ n 16777216 by omega) (le_of_lt hu)
  by_cases hch : isSN7Channel env ch = true
  · obtain ⟨h1, h2⟩ := levelOf_range env ch (combinedLevel L R) hch
    exact small _ h1 (by omega)
  · have hl : levelOf env ch (combinedLevel L R) = wrap32 |combinedLevel L R| := by
      simp [levelOf, hch]
    rw [hl]
    rcases combinedLevel_bound L R with ⟨h1, h2⟩ | h
    · rw [abs_of_nonneg h1, wrap32_of_I32 (by unfold I32; omega)]
      exact small _ h1 h2
    · rw [h]; decide

/-- A level that is at most `2^24` stays so under `AddValue`. -/
theorem AddValue_level_le (env : Env) (s : CMixer) (ch chip L R t : Int)
    (h : s.m_fChannelLevels ch ≤ F32.ofInt 16777216) :
    (AddValue env s ch chip L R t).m_fChannelLevels ch ≤ F32.ofInt 16777216 := by
  rw [AddValue_levels]
  unfold StoreChannelLevel
  dsimp only
  split_ifs with hc
  · show setAt _ ch _ ch ≤ _
    rw [setAt_same]; exact AddValue_level_arg_le env ch L R
  · exact h

/-! ### The meter over several frames -/

theorem combinedLevel_zero : combinedLevel 0 0 = 0 := by
  simp [combinedLevel, intSqrt, wrap32]

theorem ofInt_zero : F32.ofInt 0 = 0 := by decide

theorem levelOf_zero (env : Env) (ch : Int)
    (hT : isSN7Channel env ch = true → 0 < env.VOLUME_TABLE 14) : levelOf env ch 0 = 0 := by
  unfold levelOf
  have hw : wrap32 |(0 : Int)| = 0 := by decide
  rw [hw]
  split_ifs with h
  · have := hT h
    have hnot : ¬ ((0 : Nat) < 15 ∧ (0 : Int) ≥ env.VOLUME_TABLE (14 - 0)) := by
      intro hc; have := hc.2; simp at this; omega
    simp only [levelLoop, if_neg hnot]
    rfl
  · rfl

/-- An event that is silent on `ch` leaves a non-negative level of `ch` as it is, and
leaves the hold counter of `ch` as it is unless the level is zero. -/
theorem AddValue_quiet (env : Env) (s : CMixer) (ch : Int) (e : Event)
    (hT : isSN7Channel env ch = true → 0 < env.VOLUME_TABLE 14)
    (hq : e.quietOn ch) (h0 : 0 ≤ s.m_fChannelLevels ch) :
    (AddValue env s e.ChanID e.Chip e.Left e.Right e.FrameCycles).m_fChannelLevels ch
      = s.m_fChannelLevels ch ∧
    (s.m_fChannelLevels ch ≠ 0 →
      (AddValue env s e.ChanID e.Chip e.Left e.Right e.FrameCycles).m_iChanLevelFallOff ch
        = s.m_iChanLevelFallOff ch) := by
  rw [AddValue_levels, AddValue_fallOff]
  by_cases hc : e.ChanID = ch
  · obtain ⟨hl, hr⟩ := hq hc
    rw [hc, hl, hr, combinedLevel_zero]
    unfold StoreChannelLevel
    simp only [levelOf_zero env ch hT, ofInt_zero]
    split_ifs with h
    · have hz : s.m_fChannelLevels ch = 0 := le_antisymm h h0
      exact ⟨by simp [hz], fun hne => absurd hz hne⟩
    · exact ⟨rfl, fun _ => rfl⟩
  · have hne : ch ≠ e.ChanID := fun h => hc h.symm
    unfold StoreChannelLevel
    dsimp only
    split_ifs with h
    · exact ⟨by simp [setAt, hne], fun _ => by simp [setAt, hne]⟩
    · exact ⟨rfl, fun _ => rfl⟩

theorem play_quiet (env : Env) (ch : Int)
    (hT : isSN7Channel env ch = true → 0 < env.VOLUME_TABLE 14) :
    ∀ (es : List Event) (s : CMixer), (∀ e ∈ es, e.quietOn ch) → 0 ≤ s.m_fChannelLevels ch →
      (play env s es).m_fChannelLevels ch = s.m_fChannelLevels ch ∧
      (s.m_fChannelLevels ch ≠ 0 →
        (play env s es).m_iChanLevelFallOff ch = s.m_iChanLevelFallOff ch) := by
  intro es
  induction es with
  | nil => intro s _ _; exact ⟨rfl, fun _ => rfl⟩
  | cons e es ih =>
    intro s hq h0
    have he := AddValue_quiet env s ch e hT (hq e (List.mem_cons_self _ _)) h0
    have hrest := ih (AddValue env s e.ChanID e.Chip e.Left e.Right e.FrameCycles)
      (fun x hx => hq x (List.mem_cons_of_mem _ hx)) (by rw [he.1]; exact h0)
    unfold play at hrest ⊢
    rw [List.foldl_cons]
    refine ⟨by rw [hrest.1, he.1], fun hne => ?_⟩
    rw [hrest.2 (by rw [he.1]; exact hne), he.2 hne]

/-! ### The meter curve -/

theorem meterDecay_nonneg (x : F32) : 0 ≤ meterDecay x := le_max_left _ _

theorem meterDecay_zero : meterDecay 0 = 0 := by decide

theorem meterAfter_hold (V : F32) {n : Nat} (h : n ≤ 3) : meterAfter V n = V := by
  unfold meterAfter LEVEL_FALL_OFF_DELAY
  rw [Nat.sub_eq_zero_of_le h]; rfl

theorem meterAfter_succ (V : F32) {n : Nat} (h : 3 ≤ n) :
    meterAfter V (n + 1) = meterDecay (meterAfter V n) := by
  unfold meterAfter LEVEL_FALL_OFF_DELAY
  rw [show n + 1 - 3 = (n - 3) + 1 by omega, Function.iterate_succ_apply']

theorem meterAfter_nonneg {V : F32} (h0 : 0 ≤ V) (n : Nat) : 0 ≤ meterAfter V n := by
  by_cases h : n ≤ 3
  · rw [meterAfter_hold V h]; exact h0
  · obtain ⟨m, rfl⟩ : ∃ m, n = m + 1 := ⟨n - 1, by omega⟩
    rw [meterAfter_succ V (by omega)]
    exact meterDecay_nonneg _

theorem meterDecay_lt {x : Int} (h0 : 0 < x) (hB : x ≤ F32.ofInt 16777216) :
    meterDecay x < x := by
  have e : F32.ofInt 16777216 = (11972621413014756705924586149611790497021399392059392 : Int) := by
    decide
  rw [e] at hB
  unfold meterDecay
  exact max_lt h0 (F32.sub_rate_lt h0 hB)

theorem meterDecay_le {x : Int} (h0 : 0 ≤ x) (hB : x ≤ F32.ofInt 16777216) :
    meterDecay x ≤ x := by
  rcases eq_or_lt_of_le h0 with h | h
  · rw [← h, meterDecay_zero]
  · exact le_of_lt (meterDecay_lt h hB)

theorem meterAfter_le {V : Int} (h0 : 0 ≤ V) (hB : V ≤ F32.ofInt 16777216) (n : Nat) :
    meterAfter V n ≤ V := by
  induction n with
  | zero => rw [meterAfter_hold V (by omega)]
  | succ n ih =>
    by_cases h : n + 1 ≤ 3
    · rw [meterAfter_hold V h]
    · rw [meterAfter_succ V (by omega)]
      exact le_trans (meterDecay_le (meterAfter_nonneg h0 n) (le_trans ih hB)) ih

theorem iterate_decay_zero : ∀ (k : Nat) (x : Int), 0 ≤ x → x ≤ F32.ofInt 16777216 →
    x.toNat ≤ k → meterDecay^[k] x = 0 := by
  intro k
  induction k with
  | zero =>
    intro x h0 _ hk
    have : x = 0 := by omega
    rw [this]; rfl
  | succ k ih =>
    intro x h0 hB hk
    rw [Function.iterate_succ_apply]
    rcases eq_or_lt_of_le h0 with h | h
    · rw [← h, meterDecay_zero]
      exact ih 0 (le_refl _) (by rw [← h] at hB; exact hB) (by simp)
    · have hlt := meterDecay_lt h hB
      have hnn := meterDecay_nonneg x
      refine ih _ hnn (le_trans (le_of_lt hlt) hB) ?_
      have h1 : @LT.lt Int _ (meterDecay x) x := hlt
      have h2 : @LE.le Int _ 0 (meterDecay x) := hnn
      omega

/-- The invariant carried from frame to frame: the level follows the curve, and the
hold counter counts down from the delay unless the level is zero. -/
theorem runFrame_curve (env : Env) (ch : Int) (V : F32) (hch : 0 ≤ ch ∧ ch < env.CHANNELS)
    (hT : isSN7Channel env ch = true → 0 < env.VOLUME_TABLE 14) (hV : 0 ≤ V)
    (s : CMixer) (n : Nat) (f : List Event × Int) (hq : ∀ e ∈ f.1, e.quietOn ch)
    (h1 : s.m_fChannelLevels ch = meterAfter V n)
    (h2 : s.m_fChannelLevels ch = 0 ∨ s.m_iChanLevelFallOff ch = 3 - n) :
    (runFrame env s f).m_fChannelLevels ch = meterAfter V (n + 1) ∧
    ((runFrame env s f).m_fChannelLevels ch = 0 ∨
      (runFrame env s f).m_iChanLevelFallOff ch = 3 - (n + 1)) := by
  have hnn : 0 ≤ s.m_fChannelLevels ch := by rw [h1]; exact meterAfter_nonneg hV n
  obtain ⟨p1, p2⟩ := play_quiet env ch hT f.1 s hq hnn
  unfold runFrame
  rw [FinishBuffer_levels, FinishBuffer_hold, if_pos hch, if_pos hch, p1]
  have hnext0 : meterAfter V n = 0 → meterAfter V (n + 1) = 0 := by
    intro hz
    by_cases hn : n + 1 ≤ 3
    · rw [meterAfter_hold V hn, ← meterAfter_hold V (show n ≤ 3 by omega), hz]
    · rw [meterAfter_succ V (by omega), hz, meterDecay_zero]
  by_cases hz : s.m_fChannelLevels ch = 0
  · have hf : fallenLevel (s.m_fChannelLevels ch) ((play env s f.1).m_iChanLevelFallOff ch) = 0 := by
      rw [hz]; simp [fallenLevel]
    rw [hf]
    exact ⟨(hnext0 (by rw [← h1, hz])).symm, Or.inl rfl⟩
  · have hh : s.m_iChanLevelFallOff ch = 3 - n := by
      rcases h2 with h | h
      · exact absurd h hz
      · exact h
    rw [p2 hz, hh]
    by_cases hn : n + 1 ≤ 3
    · have hpos : 3 - n > 0 := by omega
      refine ⟨?_, Or.inr ?_⟩
      · rw [meterAfter_hold V hn, ← meterAfter_hold V (show n ≤ 3 by omega), ← h1]
        simp [fallenLevel, hpos]
      · simp only [fallenHold, if_pos hpos]; omega
    · have hzero : 3 - n = 0 := by omega
      rw [hzero]
      refine ⟨?_, Or.inr ?_⟩
      · rw [fallenLevel_zero_hold hnn, meterAfter_succ V (by omega), ← h1]; rfl
      · have : fallenHold 0 = 0 := rfl
        rw [this]; omega

theorem runFrames_curve (env : Env) (ch : Int) (V : F32) (hch : 0 ≤ ch ∧ ch < env.CHANNELS)
    (hT : isSN7Channel env ch = true → 0 < env.VOLUME_TABLE 14) (hV : 0 ≤ V) :
    ∀ (fs : List (List Event × Int)) (s : CMixer) (n : Nat),
      (∀ f ∈ fs, ∀ e ∈ f.1, e.quietOn ch) →
      s.m_fChannelLevels ch = meterAfter V n →
      (s.m_fChannelLevels ch = 0 ∨ s.m_iChanLevelFallOff ch = 3 - n) →
      (runFrames env s fs).m_fChannelLevels ch = meterAfter V (n + fs.length) := by
  intro fs
  induction fs with
  | nil => intro s n _ h1 _; exact h1
  | cons f fs ih =>
    intro s n hq h1 h2
    obtain ⟨q1, q2⟩ := runFrame_curve env ch V hch hT hV s n f
      (hq f (List.mem_cons_self _ _)) h1 h2
    have := ih (runFrame env s f) (n + 1) (fun g hg => hq g (List.mem_cons_of_mem _ hg)) q1 q2
    unfold runFrames at this ⊢
    rw [List.foldl_cons, this, List.length_cons]
    congr 1; omega


/-- C9: two instances.  A channel just raised (hold 3) keeps its level and has hold 2
after `FinishBuffer`; a channel at `15.0f` with no hold falls to `15.0f - 0.6f`, which
is `15099494 / 2^20` in single precision. -/
theorem FinishBuffer_fall_off_witness :
    ((FinishBuffer sampleEnv (StoreChannelLevel sampleEnv CMixer.new 0 100) 200).m_iChanLevelFallOff 0
        = 2 ∧
      (FinishBuffer sampleEnv (StoreChannelLevel sampleEnv CMixer.new 0 100) 200).m_fChannelLevels 0
        = F32.ofInt 3) ∧
    ((FinishBuffer sampleEnv loudMixer 200).m_iChanLevelFallOff 0 = 0 ∧
      (FinishBuffer sampleEnv loudMixer 200).m_fChannelLevels 0
        = ((15099494 * 2 ^ 129 : Nat) : Int)) := by
  have h1 := FinishBuffer_fall_off sampleEnv (StoreChannelLevel sampleEnv CMixer.new 0 100) 200 0
    (by decide) (by decide)
  have h2 := FinishBuffer_fall_off sampleEnv loudMixer 200 0 (by decide) (by decide)
  rw [if_pos (by decide)] at h1
  rw [if_neg (by decide)] at h2
  refine ⟨⟨?_, ?_⟩, ⟨h2.1, ?_⟩⟩
  · rw [h1.1]; decide
  · rw [h1.2]; decide
  · rw [h2.2]; decide

/-- C10. Meter rise and bounded fall.  Take a channel `0 ≤ ch < CHANNELS` that has
just been raised to level `V` (its hold counter is the delay 3), with `0 ≤ V` and
`V ≤ 2^24` (the range in which single-precision subtraction of `0.6f` is not absorbed;
`AddValue` never produces a larger level), and any sequence of frames whose events are
silent on `ch`, each frame ending in `FinishBuffer`.  (For a square or noise channel
the quietest table entry is assumed positive, so that amplitude 0 has level 0.)
Then the level after the frames is `meterAfter V n`, `n` the number of frames, where
`meterAfter V n` is `V` for `n ≤ 3`, falls by the rate `0.6f` floored at zero on each
further frame, strictly decreasing while positive, reaches zero, stays zero, and is
never negative. -/
theorem meter_hold_then_fall (env : Env) (s : CMixer) (ch : Int) (V : F32)
    (frames : List (List Event × Int))
    (hch : 0 ≤ ch ∧ ch < env.CHANNELS)
    (hT : isSN7Channel env ch = true → 0 < env.VOLUME_TABLE 14)
    (hV : s.m_fChannelLevels ch = V) (hH : s.m_iChanLevelFallOff ch = LEVEL_FALL_OFF_DELAY)
    (h0 : 0 ≤ V) (hB : V ≤ F32.ofInt 16777216)
    (hq : ∀ f ∈ frames, ∀ e ∈ f.1, e.quietOn ch) :
    (runFrames env s frames).m_fChannelLevels ch = meterAfter V frames.length ∧
    (∀ n, n ≤ 3 → meterAfter V n = V) ∧
    (∀ n, 3 ≤ n →
      meterAfter V (n + 1) = max 0 (F32.sub (meterAfter V n) LEVEL_FALL_OFF_RATE)) ∧
    (∀ n, 3 ≤ n → 0 < meterAfter V n → meterAfter V (n + 1) < meterAfter V n) ∧
    (∃ n, meterAfter V n = 0) ∧
    (∀ n, 3 ≤ n → meterAfter V n = 0 → meterAfter V (n + 1) = 0) ∧
    (∀ n, 0 ≤ meterAfter V n) := by
  refine ⟨?_, fun n hn => meterAfter_hold V hn, fun n hn => meterAfter_succ V hn, ?_, ?_, ?_,
    meterAfter_nonneg h0⟩
  · have := runFrames_curve env ch V hch hT h0 frames s 0 hq
      (by rw [hV, meterAfter_hold V (by omega)]) (Or.inr (by rw [hH]; rfl))
    rw [this, Nat.zero_add]
  · intro n hn hpos
    rw [meterAfter_succ V hn]
    exact meterDecay_lt hpos (le_trans (meterAfter_le h0 hB n) hB)
  · refine ⟨3 + V.toNat, ?_⟩
    unfold meterAfter LEVEL_FALL_OFF_DELAY
    rw [Nat.add_sub_cancel_left]
    exact iterate_decay_zero V.toNat V h0 hB (le_refl _)
  · intro n hn hz
    rw [meterAfter_succ V hn, hz, meterDecay_zero]

/-- C10: the sequence `[0, 100, 0, 0, 0, 0]` on square channel 1 with the sample
table.  The event of amplitude 100 raises the level to 3; after the five
`FinishBuffer` calls that follow, the level has been held for three of them and has
fallen twice, to `1.8000000715…`. -/
theorem meter_hold_then_fall_witness :
    raisedMixer.m_fChannelLevels 0 = F32.ofInt 3 ∧
    (runFrames sampleEnv raisedMixer quietFrames).m_fChannelLevels 0
      = meterAfter (F32.ofInt 3) 5 ∧
    meterAfter (F32.ofInt 3) 5 = ((15099495 * 2 ^ 126 : Nat) : Int) := by
  have c0 : combinedLevel 100 100 = 100 := by
    have e1 : Int.tdiv (wrap32 (wrap32 (100 * 100) + wrap32 (100 * 100))) 2 = 10000 := by decide
    have e2 : Int.toNat 10000 = 10000 := rfl
    have e3 : Nat.sqrt 10000 = 100 := by norm_num
    unfold combinedLevel intSqrt
    rw [e1, if_pos (by decide), e2, e3]
    rfl
  have hV : raisedMixer.m_fChannelLevels 0 = F32.ofInt 3 := by
    unfold raisedMixer; rw [AddValue_levels, c0]; decide
  have hH : raisedMixer.m_iChanLevelFallOff 0 = LEVEL_FALL_OFF_DELAY := by
    unfold raisedMixer; rw [AddValue_fallOff, c0]; decide
  have h := meter_hold_then_fall sampleEnv raisedMixer 0 (F32.ofInt 3) quietFrames
    (by decide) (fun _ => by decide) hV hH (by decide) (by decide) (by decide)
  exact ⟨hV, h.1, by decide⟩


/-! ### The meter invariant -/

theorem StoreChannelLevel_inv (env : Env) (s : CMixer) (c v : Int)
    (h : ∀ ch, s.m_iChanLevelFallOff ch ≤ 3 ∧ 0 ≤ s.m_fChannelLevels ch) :
    ∀ ch, (StoreChannelLevel env s c v).m_iChanLevelFallOff ch ≤ 3 ∧
      0 ≤ (StoreChannelLevel env s c v).m_fChannelLevels ch := by
  intro ch
  unfold StoreChannelLevel
  dsimp only
  split_ifs with hc
  · by_cases e : ch = c
    · subst e
      refine ⟨by simp [LEVEL_FALL_OFF_DELAY], ?_⟩
      show 0 ≤ setAt _ ch _ ch
      rw [setAt_same]
      exact le_trans (h ch).2 hc
    · exact ⟨by simp [setAt, e, (h ch).1], by simp [setAt, e, (h ch).2]⟩
  · exact h ch

theorem fallenLevel_nonneg {lvl : F32} (h : 0 ≤ lvl) (hold : Nat) : 0 ≤ fallenLevel lvl hold := by
  unfold fallenLevel
  split_ifs with h1 h2 h3
  · exact h
  · exact le_refl _
  · exact not_lt.mp h3
  · exact h

theorem fallenHold_le (hold : Nat) : fallenHold hold ≤ hold := by
  unfold fallenHold; split_ifs <;> omega

theorem FinishBuffer_inv (env : Env) (s : CMixer) (t : Int)
    (h : ∀ ch, s.m_iChanLevelFallOff ch ≤ 3 ∧ 0 ≤ s.m_fChannelLevels ch) :
    ∀ ch, (FinishBuffer env s t).m_iChanLevelFallOff ch ≤ 3 ∧
      0 ≤ (FinishBuffer env s t).m_fChannelLevels ch := by
  intro ch
  rw [FinishBuffer_levels, FinishBuffer_hold]
  split_ifs with hc
  · exact ⟨le_trans (fallenHold_le _) (h ch).1, fallenLevel_nonneg (h ch).2 _⟩
  · exact h ch

theorem applyOp_inv (env : Env) (s : CMixer) (op : MeterOp)
    (h : ∀ ch, s.m_iChanLevelFallOff ch ≤ 3 ∧ 0 ≤ s.m_fChannelLevels ch) :
    ∀ ch, (applyOp env s op).m_iChanLevelFallOff ch ≤ 3 ∧
      0 ≤ (applyOp env s op).m_fChannelLevels ch := by
  cases op with
  | addValue c chip l r t =>
    intro ch
    show (AddValue env s c chip l r t).m_iChanLevelFallOff ch ≤ 3 ∧
      0 ≤ (AddValue env s c chip l r t).m_fChannelLevels ch
    rw [AddValue_levels, AddValue_fallOff]
    exact StoreChannelLevel_inv env s c _ h ch
  | storeChannelLevel c v => exact StoreChannelLevel_inv env s c v h
  | finishBuffer t => exact FinishBuffer_inv env s t h
  | clearChannelLevels =>
    intro ch
    exact ⟨Nat.zero_le _, le_refl _⟩

theorem runOps_inv (env : Env) : ∀ (ops : List MeterOp) (s : CMixer),
    (∀ ch, s.m_iChanLevelFallOff ch ≤ 3 ∧ 0 ≤ s.m_fChannelLevels ch) →
    ∀ ch, (runOps env s ops).m_iChanLevelFallOff ch ≤ 3 ∧
      0 ≤ (runOps env s ops).m_fChannelLevels ch := by
  intro ops
  induction ops with
  | nil => intro s h; exact h
  | cons op ops ih =>
    intro s h
    unfold runOps
    rw [List.foldl_cons]
    exact ih _ (applyOp_inv env s op h)

/-- C12. Meter state invariant: in every state reached from a new mixer by any
sequence of `AddValue`, `StoreChannelLevel`, `FinishBuffer` and `ClearChannelLevels`
calls, every channel has `0 ≤ hold ≤ 3` and a non-negative level. -/
theorem meter_invariant (env : Env) (ops : List MeterOp) (ch : Int) :
    0 ≤ (runOps env CMixer.new ops).m_iChanLevelFallOff ch ∧
    (runOps env CMixer.new ops).m_iChanLevelFallOff ch ≤ 3 ∧
    0 ≤ (runOps env CMixer.new ops).m_fChannelLevels ch := by
  have h := runOps_inv env ops CMixer.new (fun _ => ⟨Nat.zero_le _, le_refl _⟩) ch
  exact ⟨Nat.zero_le _, h.1, h.2⟩

/-! ### Construction and clearing -/

/-- C13, counterexample. After `AddValue(SQUARE1, default, 200, 200, 0)` on a new
mixer, the explicit clears `ClearChannelLevels` and `ClearBuffer` do not bring the
stored left amplitude of the channel back to zero. -/
theorem clear_keeps_last_amplitude :
    ¬ ((ClearBuffer (ClearChannelLevels
        (AddValue sampleEnv CMixer.new 0 0 200 200 0))).m_iChannelsLeft 0 = 0) := by
  have h : (ClearBuffer (ClearChannelLevels
      (AddValue sampleEnv CMixer.new 0 0 200 200 0))).m_iChannelsLeft 0 = 200 := by
    show (AddValue sampleEnv CMixer.new 0 0 200 200 0).m_iChannelsLeft 0 = 200
    rw [AddValue_left]; decide
  rw [h]; decide

/-- C13, amended. Immediately after construction every channel has left amplitude 0,
right amplitude 0, level 0 and hold 0.  After `ClearChannelLevels`, from any state,
every channel has level 0 and hold 0, and the stored amplitudes are the ones before
the call; `ClearBuffer` changes none of the four. -/
theorem lifecycle (s : CMixer) (ch : Int) :
    (CMixer.new.m_iChannelsLeft ch = 0 ∧ CMixer.new.m_iChannelsRight ch = 0 ∧
      CMixer.new.m_fChannelLevels ch = 0 ∧ CMixer.new.m_iChanLevelFallOff ch = 0) ∧
    ((ClearChannelLevels s).m_fChannelLevels ch = 0 ∧
      (ClearChannelLevels s).m_iChanLevelFallOff ch = 0 ∧
      (ClearChannelLevels s).m_iChannelsLeft ch = s.m_iChannelsLeft ch ∧
      (ClearChannelLevels s).m_iChannelsRight ch = s.m_iChannelsRight ch) ∧
    ((ClearBuffer s).m_fChannelLevels ch = s.m_fChannelLevels ch ∧
      (ClearBuffer s).m_iChanLevelFallOff ch = s.m_iChanLevelFallOff ch ∧
      (ClearBuffer s).m_iChannelsLeft ch = s.m_iChannelsLeft ch ∧
      (ClearBuffer s).m_iChannelsRight ch = s.m_iChannelsRight ch) :=
  ⟨⟨rfl, rfl, rfl, rfl⟩, ⟨rfl, rfl, rfl, rfl⟩, ⟨rfl, rfl, rfl, rfl⟩⟩

/-! ### Quantization buckets -/

/-- C15. Quantized level idempotence: two raw values that map to the same
quantization level on a channel give, from the same state, the same mixer after
`StoreChannelLevel`, in particular the same level and the same hold for the channel. -/
theorem StoreChannelLevel_same_bucket (env : Env) (s : CMixer) (ch a b : Int)
    (h : levelOf env ch a = levelOf env ch b) :
    (StoreChannelLevel env s ch a).m_fChannelLevels ch
      = (StoreChannelLevel env s ch b).m_fChannelLevels ch ∧
    (StoreChannelLevel env s ch a).m_iChanLevelFallOff ch
      = (StoreChannelLevel env s ch b).m_iChanLevelFallOff ch ∧
    StoreChannelLevel env s ch a = StoreChannelLevel env s ch b := by
  have e : StoreChannelLevel env s ch a = StoreChannelLevel env s ch b := by
    unfold StoreChannelLevel
    rw [h]
  exact ⟨by rw [e], by rw [e], e⟩

/-- C15: an instance.  Against the sample table the amplitudes 100 and -110 both have
level 3 on square channel 1; stored into a new mixer they give level `3.0f`, hold 3. -/
theorem StoreChannelLevel_same_bucket_witness :
    levelOf sampleEnv 0 100 = levelOf sampleEnv 0 (-110) ∧
    (StoreChannelLevel sampleEnv CMixer.new 0 100).m_fChannelLevels 0
      = (StoreChannelLevel sampleEnv CMixer.new 0 (-110)).m_fChannelLevels 0 ∧
    (StoreChannelLevel sampleEnv CMixer.new 0 100).m_iChanLevelFallOff 0
      = (StoreChannelLevel sampleEnv CMixer.new 0 (-110)).m_iChanLevelFallOff 0 :=
  ⟨by decide, (StoreChannelLevel_same_bucket sampleEnv CMixer.new 0 100 (-110) (by decide)).1,
    (StoreChannelLevel_same_bucket sampleEnv CMixer.new 0 100 (-110) (by decide)).2.1⟩

/-- C19. Quantization is monotone: for a square or noise channel and values `a`, `b`
whose magnitudes are `int`s with `|a| ≤ |b|`, the level computed for `a` is at most
the level computed for `b`.  This holds for every table, in particular for one that
is non-increasing over the entries 0 … 14. -/
theorem levelOf_mono (env : Env) (ch a b : Int) (hch : isSN7Channel env ch = true)
    (ha : -2147483648 < a ∧ a < 2147483648) (hb : -2147483648 < b ∧ b < 2147483648)
    (hab : |a| ≤ |b|) : levelOf env ch a ≤ levelOf env ch b := by
  rw [levelOf_SN7 env ch a hch, levelOf_SN7 env ch b hch, wrap32_abs ha, wrap32_abs hb]
  obtain ⟨_, _, a3, _⟩ := levelLoop_spec env.VOLUME_TABLE |a| 15 0 (by omega) (by omega)
  obtain ⟨_, b2, _, b4⟩ := levelLoop_spec env.VOLUME_TABLE |b| 15 0 (by omega) (by omega)
  by_contra hlt
  have hlt2 : levelLoop env.VOLUME_TABLE |b| 15 0 < levelLoop env.VOLUME_TABLE |a| 15 0 := by
    omega
  have h1 := a3 _ (Nat.zero_le _) hlt2
  rcases b4 with h | h
  · omega
  · omega

/-- C19: an instance with the sample table: level 3 for amplitude 100, level 15 for
amplitude -2000. -/
theorem levelOf_mono_witness :
    levelOf sampleEnv 0 100 ≤ levelOf sampleEnv 0 (-2000) ∧
      levelOf sampleEnv 0 100 = 3 ∧ levelOf sampleEnv 0 (-2000) = 15 :=
  ⟨levelOf_mono sampleEnv 0 100 (-2000) (by decide) (by decide) (by decide) (by decide),
    by decide, by decide⟩

/-! ### Isolation of channels -/

theorem AddValue_levelLeft (env : Env) (s : CMixer) (c chip L R t : Int) :
    (AddValue env s c chip L R t).m_fLevelSN7Left = s.m_fLevelSN7Left := by
  unfold AddValue addRight addLeft StoreChannelLevel; dsimp only; split_ifs <;> rfl

theorem AddValue_levelRight (env : Env) (s : CMixer) (c chip L R t : Int) :
    (AddValue env s c chip L R t).m_fLevelSN7Right = s.m_fLevelSN7Right := by
  unfold AddValue addRight addLeft StoreChannelLevel; dsimp only; split_ifs <;> rfl

theorem StoreChannelLevel_other (env : Env) (s : CMixer) (c v : Int) {ch : Int} (h : ch ≠ c) :
    (StoreChannelLevel env s c v).m_fChannelLevels ch = s.m_fChannelLevels ch ∧
    (StoreChannelLevel env s c v).m_iChanLevelFallOff ch = s.m_iChanLevelFallOff ch := by
  unfold StoreChannelLevel; dsimp only
  split_ifs
  · exact ⟨setAt_other _ _ h, setAt_other _ _ h⟩
  · exact ⟨rfl, rfl⟩

/-- C20. Per-channel isolation: `AddValue(ch, chip, L, R, t)` leaves the stored left
and right amplitudes, the level and the hold of every channel other than `ch`
unchanged, and leaves the separation factors and the stereo levels unchanged. -/
theorem AddValue_isolation (env : Env) (s : CMixer) (ch chip L R t other : Int)
    (h : other ≠ ch) :
    (AddValue env s ch chip L R t).m_iChannelsLeft other = s.m_iChannelsLeft other ∧
    (AddValue env s ch chip L R t).m_iChannelsRight other = s.m_iChannelsRight other ∧
    (AddValue env s ch chip L R t).m_fChannelLevels other = s.m_fChannelLevels other ∧
    (AddValue env s ch chip L R t).m_iChanLevelFallOff other = s.m_iChanLevelFallOff other ∧
    (AddValue env s ch chip L R t).m_fLevelSN7SepHi = s.m_fLevelSN7SepHi ∧
    (AddValue env s ch chip L R t).m_fLevelSN7SepLo = s.m_fLevelSN7SepLo ∧
    (AddValue env s ch chip L R t).m_fLevelSN7Left = s.m_fLevelSN7Left ∧
    (AddValue env s ch chip L R t).m_fLevelSN7Right = s.m_fLevelSN7Right := by
  refine ⟨?_, ?_, ?_, ?_, AddValue_sepHi _ _ _ _ _ _ _, AddValue_sepLo _ _ _ _ _ _ _,
    AddValue_levelLeft _ _ _ _ _ _ _, AddValue_levelRight _ _ _ _ _ _ _⟩
  · rw [AddValue_left]; split_ifs
    · exact setAt_other _ _ h
    · rfl
  · rw [AddValue_right]; split_ifs
    · exact setAt_other _ _ h
    · rfl
  · rw [AddValue_levels]; exact (StoreChannelLevel_other env s ch _ h).1
  · rw [AddValue_fallOff]; exact (StoreChannelLevel_other env s ch _ h).2

/-- C20: an instance.  An event on square channel 1 of the raised mixer leaves square
channel 2 as it is. -/
theorem AddValue_isolation_witness :
    (AddValue sampleEnv raisedMixer 0 0 50 (-50) 9).m_iChannelsLeft 1
      = raisedMixer.m_iChannelsLeft 1 ∧
    (AddValue sampleEnv raisedMixer 0 0 50 (-50) 9).m_fChannelLevels 1
      = raisedMixer.m_fChannelLevels 1 :=
  ⟨(AddValue_isolation sampleEnv raisedMixer 0 0 50 (-50) 9 1 (by decide)).1,
    (AddValue_isolation sampleEnv raisedMixer 0 0 50 (-50) 9 1 (by decide)).2.2.1⟩

/-! ### Configuration -/

theorem currentBass_append (log : List BlipCall) (f : Int) :
    currentBass (log ++ [BlipCall.bass_freq f]) = some f := by
  simp [currentBass, List.foldl_append]

theorem currentTreble_append (log : List SynthCall) (a b r : Int) (v : F32) :
    currentTreble (log ++ [SynthCall.treble_eq a b r, SynthCall.volume v]) = some (a, b, r) := by
  simp [currentTreble, List.foldl_append]

theorem currentVolume_append (log : List SynthCall) (a b r : Int) (v : F32) :
    currentVolume (log ++ [SynthCall.treble_eq a b r, SynthCall.volume v]) = some v := by
  simp [currentVolume, List.foldl_append]

/-- C14. Configuration idempotence: calling `UpdateSettings` twice in a row with the
same arguments leaves the stored settings identical to calling it once, sends each
buffer and synth the very calls the first call sent, and so leaves the bass frequency
of both buffers and the treble equalization and volume of both synths as the first
call set them. -/
theorem UpdateSettings_idempotent (s : CMixer) (LowCut HighCut HighDamp : Int) (OverallVol : F32) :
    ((UpdateSettings (UpdateSettings s LowCut HighCut HighDamp OverallVol)
          LowCut HighCut HighDamp OverallVol).m_iLowCut
        = (UpdateSettings s LowCut HighCut HighDamp OverallVol).m_iLowCut ∧
      (UpdateSettings (UpdateSettings s LowCut HighCut HighDamp OverallVol)
          LowCut HighCut HighDamp OverallVol).m_iHighCut
        = (UpdateSettings s LowCut HighCut HighDamp OverallVol).m_iHighCut ∧
      (UpdateSettings (UpdateSettings s LowCut HighCut HighDamp OverallVol)
          LowCut HighCut HighDamp OverallVol).m_iHighDamp
        = (UpdateSettings s LowCut HighCut HighDamp OverallVol).m_iHighDamp ∧
      (UpdateSettings (UpdateSettings s LowCut HighCut HighDamp OverallVol)
          LowCut HighCut HighDamp OverallVol).m_fOverallVol
        = (UpdateSettings s LowCut HighCut HighDamp OverallVol).m_fOverallVol) ∧
    ((UpdateSettings (UpdateSettings s LowCut HighCut HighDamp OverallVol)
          LowCut HighCut HighDamp OverallVol).BlipBufferLeft
        = s.BlipBufferLeft ++ [BlipCall.bass_freq LowCut] ++ [BlipCall.bass_freq LowCut] ∧
      (UpdateSettings (UpdateSettings s LowCut HighCut HighDamp OverallVol)
          LowCut HighCut HighDamp OverallVol).BlipBufferRight
        = s.BlipBufferRight ++ [BlipCall.bass_freq LowCut] ++ [BlipCall.bass_freq LowCut] ∧
      (UpdateSettings (UpdateSettings s LowCut HighCut HighDamp OverallVol)
          LowCut HighCut HighDamp OverallVol).SynthSN76489Left
        = s.SynthSN76489Left ++
          [SynthCall.treble_eq (wrap32 (-HighDamp)) HighCut s.m_iSampleRate,
            SynthCall.volume (F32.mul (F32.mul (F32.mul OverallVol (F32.lit 1 1)) (F32.lit 2 10))
              s.m_fLevelSN7Left)] ++
          [SynthCall.treble_eq (wrap32 (-HighDamp)) HighCut s.m_iSampleRate,
            SynthCall.volume (F32.mul (F32.mul (F32.mul OverallVol (F32.lit 1 1)) (F32.lit 2 10))
              s.m_fLevelSN7Left)] ∧
      (UpdateSettings (UpdateSettings s LowCut HighCut HighDamp OverallVol)
          LowCut HighCut HighDamp OverallVol).SynthSN76489Right
        = s.SynthSN76489Right ++
          [SynthCall.treble_eq (wrap32 (-HighDamp)) HighCut s.m_iSampleRate,
            SynthCall.volume (F32.mul (F32.mul (F32.mul OverallVol (F32.lit 1 1)) (F32.lit 2 10))
              s.m_fLevelSN7Right)] ++
          [SynthCall.treble_eq (wrap32 (-HighDamp)) HighCut s.m_iSampleRate,
            SynthCall.volume (F32.mul (F32.mul (F32.mul OverallVol (F32.lit 1 1)) (F32.lit 2 10))
              s.m_fLevelSN7Right)]) ∧
    (currentBass (UpdateSettings (UpdateSettings s LowCut HighCut HighDamp OverallVol)
          LowCut HighCut HighDamp OverallVol).BlipBufferLeft
        = currentBass (UpdateSettings s LowCut HighCut HighDamp OverallVol).BlipBufferLeft ∧
      currentBass (UpdateSettings (UpdateSettings s LowCut HighCut HighDamp OverallVol)
          LowCut HighCut HighDamp OverallVol).BlipBufferRight
        = currentBass (UpdateSettings s LowCut HighCut HighDamp OverallVol).BlipBufferRight ∧
      currentTreble (UpdateSettings (UpdateSettings s LowCut HighCut HighDamp OverallVol)
          LowCut HighCut HighDamp OverallVol).SynthSN76489Left
        = currentTreble (UpdateSettings s LowCut HighCut HighDamp OverallVol).SynthSN76489Left ∧
      currentTreble (UpdateSettings (UpdateSettings s LowCut HighCut HighDamp OverallVol)
          LowCut HighCut HighDamp OverallVol).SynthSN76489Right
        = currentTreble (UpdateSettings s LowCut HighCut HighDamp OverallVol).SynthSN76489Right ∧
      currentVolume (UpdateSettings (UpdateSettings s LowCut HighCut HighDamp OverallVol)
          LowCut HighCut HighDamp OverallVol).SynthSN76489Left
        = currentVolume (UpdateSettings s LowCut HighCut HighDamp OverallVol).SynthSN76489Left ∧
      currentVolume (UpdateSettings (UpdateSettings s LowCut HighCut HighDamp OverallVol)
          LowCut HighCut HighDamp OverallVol).SynthSN76489Right
        = currentVolume (UpdateSettings s LowCut HighCut HighDamp OverallVol).SynthSN76489Right) := by
  refine ⟨⟨rfl, rfl, rfl, rfl⟩, ⟨rfl, rfl, rfl, rfl⟩, ?_⟩
  unfold UpdateSettings GetAttenuation
  dsimp only
  simp only [currentBass_append, currentTreble_append, currentVolume_append, and_self]

/-! ### Buffer allocation -/

/-- For a nonzero sample rate `AllocateBuffer` returns, and its flag is true exactly
when `set_sample_rate` succeeds on the left and on the right buffer.  The sample rate
is stored and the left buffer is asked; the right buffer is asked when the left one has
succeeded, so a true flag means both buffers were configured for the rate. -/
theorem AllocateBuffer_nonzero_rate (setOk : List BlipCall → Int → Int → Bool) (s : CMixer)
    (BufferLength SampleRate NrChannels : Nat) (hrate : 0 < SampleRate) :
    ∃ r : Bool × CMixer, AllocateBuffer setOk s BufferLength SampleRate NrChannels = some r ∧
      r.1 =
        (setOk s.BlipBufferLeft (wrap32 (SampleRate : Int))
            (wrap32 ((BufferLength * 1000 % 4294967296 * 2 % 4294967296 / SampleRate : Nat)
              : Int)) &&
          setOk s.BlipBufferRight (wrap32 (SampleRate : Int))
            (wrap32 ((BufferLength * 1000 % 4294967296 * 2 % 4294967296 / SampleRate : Nat)
              : Int))) ∧
      r.2.m_iSampleRate = SampleRate ∧
      r.2.BlipBufferLeft =
        s.BlipBufferLeft ++ [BlipCall.set_sample_rate (wrap32 (SampleRate : Int))
          (wrap32 ((BufferLength * 1000 % 4294967296 * 2 % 4294967296 / SampleRate : Nat)
            : Int))] ∧
      r.2.BlipBufferRight =
        (if setOk s.BlipBufferLeft (wrap32 (SampleRate : Int))
            (wrap32 ((BufferLength * 1000 % 4294967296 * 2 % 4294967296 / SampleRate : Nat)
              : Int))
        then s.BlipBufferRight ++ [BlipCall.set_sample_rate (wrap32 (SampleRate : Int))
          (wrap32 ((BufferLength * 1000 % 4294967296 * 2 % 4294967296 / SampleRate : Nat)
            : Int))]
        else s.BlipBufferRight) := by
  have hne : SampleRate ≠ 0 := by omega
  unfold AllocateBuffer
  dsimp only
  rw [if_neg hne]
  generalize wrap32 ((BufferLength * 1000 % 4294967296 * 2 % 4294967296 / SampleRate : Nat) : Int)
    = msec
  generalize wrap32 (SampleRate : Int) = rate
  split_ifs with h
  · exact ⟨_, rfl, by simp [h], rfl, rfl, by simp [h]⟩
  · exact ⟨_, rfl, by simp [h], rfl, rfl, by simp [h]⟩

/-- Two allocations with a library that accepts the rates 1 Hz to 99999 Hz: at 44100 Hz
the flag is true and both buffers are configured, at 200000 Hz the flag is false and
the right buffer is not asked. -/
theorem AllocateBuffer_nonzero_rate_examples :
    (∃ r : Bool × CMixer, AllocateBuffer sampleSetOk CMixer.new 40 44100 2 = some r ∧
      r.1 = true ∧ r.2.BlipBufferRight = [BlipCall.set_sample_rate 44100 1]) ∧
    (∃ r : Bool × CMixer, AllocateBuffer sampleSetOk CMixer.new 40 200000 2 = some r ∧
      r.1 = false ∧ r.2.BlipBufferRight = []) := by
  obtain ⟨r1, e1, f1, _, _, b1⟩ :=
    AllocateBuffer_nonzero_rate sampleSetOk CMixer.new 40 44100 2 (by decide)
  obtain ⟨r2, e2, f2, _, _, b2⟩ :=
    AllocateBuffer_nonzero_rate sampleSetOk CMixer.new 40 200000 2 (by decide)
  refine ⟨⟨r1, e1, ?_, ?_⟩, ⟨r2, e2, ?_, ?_⟩⟩
  · rw [f1]; decide
  · rw [b1]; decide
  · rw [f2]; decide
  · rw [b2]; decide

/-- C16, the defect. With `SampleRate = 0` the call `AllocateBuffer(40, 0, 2)` on a
new mixer does not report failure: the library cannot size a buffer at rate 0, but
the duration is a quotient by the rate and the division by zero comes before either
buffer is asked, so no flag is returned, in particular not `false`.  The same holds
for every state, buffer length, channel count and library. -/
theorem AllocateBuffer_zero_rate :
    sampleSetOk CMixer.new.BlipBufferLeft 0 0 = false ∧
    AllocateBuffer sampleSetOk CMixer.new 40 0 2 = none ∧
    (∀ (setOk : List BlipCall → Int → Int → Bool) (s : CMixer) (BufferLength NrChannels : Nat),
      AllocateBuffer setOk s BufferLength 0 NrChannels = none) := by
  refine ⟨by decide, rfl, ?_⟩
  intro setOk s BufferLength NrChannels
  unfold AllocateBuffer
  dsimp only
  rw [if_pos rfl]

/-! ### The combined magnitude -/

/-- C17. The value `AddValue` passes to the level meter: for amplitudes with
`L² + R² < 2^31` it is the floor of the real square root of `(L² + R²) / 2`, the
division being exact, and it is `|L|` when `L = R`. -/
theorem combinedLevel_floor_sqrt (L R : Int) (h : L * L + R * R < 2147483648) :
    combinedLevel L R = ⌊Real.sqrt (((L * L + R * R : Int) : ℝ) / 2)⌋ ∧
    (L = R → combinedLevel L R = |L|) := by
  have hL : 0 ≤ L * L := mul_self_nonneg L
  have hR : 0 ≤ R * R := mul_self_nonneg R
  have e1 : wrap32 (L * L) = L * L := wrap32_of_I32 (by unfold I32; omega)
  have e2 : wrap32 (R * R) = R * R := wrap32_of_I32 (by unfold I32; omega)
  have e3 : wrap32 (L * L + R * R) = L * L + R * R := wrap32_of_I32 (by unfold I32; omega)
  have hS : 0 ≤ L * L + R * R := by omega
  have e4 : Int.tdiv (L * L + R * R) 2 = (L * L + R * R) / 2 :=
    Int.tdiv_eq_ediv hS (by norm_num)
  have hx : 0 ≤ (L * L + R * R) / 2 := by omega
  have hc : combinedLevel L R = (Nat.sqrt ((L * L + R * R) / 2).toNat : Int) := by
    unfold combinedLevel intSqrt
    rw [e1, e2, e3, e4, if_pos hx]
  generalize hS' : L * L + R * R = S at *
  generalize hn : Nat.sqrt (S / 2).toNat = n at hc
  have hn1 : n * n ≤ (S / 2).toNat := by rw [← hn]; exact Nat.sqrt_le _
  have hn2 : (S / 2).toNat < (n + 1) * (n + 1) := by rw [← hn]; exact Nat.lt_succ_sqrt _
  have k1 : 2 * ((n : Int) * n) ≤ S := by
    have : ((n * n : Nat) : Int) ≤ S / 2 := by omega
    push_cast at this; omega
  have k2 : S < 2 * (((n : Int) + 1) * (n + 1)) := by
    have : S / 2 < (((n + 1) * (n + 1) : Nat) : Int) := by omega
    push_cast at this; omega
  constructor
  · rw [hc]
    symm
    rw [Int.floor_eq_iff]
    constructor
    · apply Real.le_sqrt_of_sq_le
      have : ((2 * ((n : Int) * n) : Int) : ℝ) ≤ (S : ℝ) := by exact_mod_cast k1
      push_cast at this ⊢
      nlinarith
    · rw [Real.sqrt_lt' (by positivity)]
      have : ((S : Int) : ℝ) < ((2 * (((n : Int) + 1) * (n + 1)) : Int) : ℝ) := by
        exact_mod_cast k2
      push_cast at this ⊢
      nlinarith
  · intro hLR
    subst hLR
    rw [hc]
    have hs : S = 2 * (L * L) := by omega
    have hq : (S / 2).toNat = L.natAbs * L.natAbs := by
      rw [hs, Int.mul_ediv_cancel_left _ (by norm_num : (2 : Int) ≠ 0)]
      rw [← Int.natAbs_mul_self, Int.toNat_natCast]
    rw [← hn, hq, Nat.sqrt_eq]
    exact (Int.abs_eq_natAbs L).symm

/-- C17: an instance, amplitudes 3 and 4: `(9 + 16) / 2 = 12.5`, whose square root
has floor 3. -/
theorem combinedLevel_floor_sqrt_witness :
    combinedLevel 3 4 = ⌊Real.sqrt ((((3 : Int) * 3 + 4 * 4 : Int) : ℝ) / 2)⌋ ∧
      ((3 : Int) = 4 → combinedLevel 3 4 = |(3 : Int)|) :=
  combinedLevel_floor_sqrt 3 4 (by decide)

end CMixer

namespace F32

/-- A quotient that lies on the rounding grid is not changed by rounding. -/
theorem roundMag_exact_div (a den : Nat) (hden : 0 < den)
    (h : den * 2 ^ (bitLen (a / den) - 24) ∣ a) : roundMag a den = a / den := by
  unfold roundMag
  dsimp only
  generalize bitLen (a / den) - 24 = k at h
  have hD : 0 < den * 2 ^ k := Nat.mul_pos hden (by positivity)
  have hr : a % (den * 2 ^ k) = 0 := Nat.mod_eq_zero_of_dvd h
  rw [hr, if_pos (by omega)]
  obtain ⟨m, hm⟩ := h
  rw [hm, Nat.mul_div_cancel_left m hD, Nat.mul_assoc, Nat.mul_div_cancel_left _ hden]
  exact Nat.mul_comm _ _

theorem lit_one : F32.lit 1 1 = (unit : Int) := by decide

theorem lit_zero : F32.lit 0 1 = 0 := by decide

/-- Multiplying the float of an integer below `2^24` in magnitude by `1.0f` and
converting back gives the integer. -/
theorem toInt_mul_one (d : Int) (h : -16777216 < d ∧ d < 16777216) :
    F32.toInt (F32.mul (F32.ofInt d) (F32.lit 1 1)) = d := by
  rw [ofInt_exact d h, lit_one]
  have hu : (0 : Int) < (unit : Int) := by unfold unit; positivity
  have hun : 0 < unit := by unfold unit; positivity
  have key : roundMag (d.natAbs * unit * unit) unit = d.natAbs * unit := by
    rw [roundMag_exact_div _ _ hun, Nat.mul_div_cancel _ hun]
    rw [Nat.mul_div_cancel _ hun]
    have hlt : d.natAbs * unit < 2 ^ 173 := by
      have : d.natAbs < 2 ^ 24 := by norm_num; omega
      calc d.natAbs * unit < 2 ^ 24 * unit :=
            Nat.mul_lt_mul_of_pos_right this hun
        _ = 2 ^ 173 := by unfold unit; norm_num
    have hk := bitLen_le hlt
    generalize bitLen (d.natAbs * unit) = b at hk
    have hd : 2 ^ (b - 24) ∣ unit := by
      have hu149 : unit = 2 ^ 149 := rfl
      rw [hu149]
      exact Nat.pow_dvd_pow 2 (by omega)
    obtain ⟨q, hq⟩ := hd
    refine ⟨d.natAbs * q, ?_⟩
    rw [hq]
    ring
  have habs : (d * (unit : Int) * (unit : Int)).natAbs = d.natAbs * unit * unit := by
    rw [Int.natAbs_mul, Int.natAbs_mul, Int.natAbs_ofNat]
  have hmul : F32.mul (d * (unit : Int)) (unit : Int) = d * (unit : Int) := by
    unfold F32.mul F32.round
    rw [habs, key]
    split_ifs with h0
    · have hn : 0 ≤ d := by
        by_contra hc
        have : d * (unit : Int) < 0 := mul_neg_of_neg_of_pos (by omega) hu
        have : d * (unit : Int) * (unit : Int) < 0 := mul_neg_of_neg_of_pos this hu
        omega
      push_cast
      rw [abs_of_nonneg hn]
    · have hn : d < 0 := by
        by_contra hc
        have : 0 ≤ d * (unit : Int) * (unit : Int) :=
          mul_nonneg (mul_nonneg (by omega) (le_of_lt hu)) (le_of_lt hu)
        exact h0 this
      push_cast
      rw [abs_of_neg hn]
      ring
  rw [hmul]
  unfold F32.toInt
  dsimp only
  rw [Int.mul_tdiv_cancel _ (ne_of_gt hu)]
  rw [if_pos (by omega)]

/-- Multiplying by `0.0f` and converting to `int` gives 0. -/
theorem toInt_mul_zero (x : F32) : F32.toInt (F32.mul x (F32.lit 0 1)) = 0 := by
  rw [lit_zero]
  unfold F32.mul
  rw [mul_zero]
  decide

end F32

namespace CMixer

/-! ### Impulse sums -/

theorem impulses_append (a b : List BlipCall) : impulses (a ++ b) = impulses a ++ impulses b := by
  induction a with
  | nil => rfl
  | cons c a ih => cases c <;> simp [impulses, ih]

theorem impulseSum_append (a b : List BlipCall) :
    impulseSum (a ++ b) = impulseSum a + impulseSum b := by
  simp [impulseSum, impulses_append]

theorem impulseSum_nil : impulseSum [] = 0 := rfl

theorem impulseSum_offset (t d : Int) : impulseSum [BlipCall.offset t d] = d := by
  simp [impulseSum, impulses]

theorem isSN7Channel_iff (env : Env) (c : Int) :
    isSN7Channel env c = true ↔
      c = env.CHANID_SQUARE1 ∨ c = env.CHANID_SQUARE2 ∨ c = env.CHANID_SQUARE3 ∨
        c = env.CHANID_NOISE := by
  simp [isSN7Channel, or_assoc]

/-- Storing `v` at a square or noise channel changes the sum over the four channels by
the change of that entry; storing elsewhere does not change it. -/
theorem sumSN7_setAt (env : Env) (a : Int → Int) (c v : Int)
    (hd : [env.CHANID_SQUARE1, env.CHANID_SQUARE2, env.CHANID_SQUARE3,
      env.CHANID_NOISE].Nodup) :
    sumSN7 env (setAt a c v) =
      sumSN7 env a + (if isSN7Channel env c = true then v - a c else 0) := by
  simp only [List.nodup_cons, List.mem_cons, List.mem_singleton, not_or, List.not_mem_nil,
    not_false_eq_true, List.nodup_nil, and_true] at hd
  obtain ⟨⟨h12, h13, h14⟩, ⟨h23, h24⟩, h34⟩ := hd
  by_cases hc : isSN7Channel env c = true
  · rw [if_pos hc]
    rcases (isSN7Channel_iff env c).1 hc with e | e | e | e <;> subst e <;>
      simp [sumSN7, setAt, h12, h13, h14, h23, h24, h34, Ne.symm h12, Ne.symm h13, Ne.symm h14,
        Ne.symm h23, Ne.symm h24, Ne.symm h34] <;> ring
  · rw [if_neg hc, add_zero]
    have hn : ¬ (c = env.CHANID_SQUARE1 ∨ c = env.CHANID_SQUARE2 ∨ c = env.CHANID_SQUARE3 ∨
        c = env.CHANID_NOISE) := fun h => hc ((isSN7Channel_iff env c).2 h)
    simp only [not_or] at hn
    obtain ⟨n1, n2, n3, n4⟩ := hn
    simp [sumSN7, setAt, Ne.symm n1, Ne.symm n2, Ne.symm n3, Ne.symm n4]

theorem AddValue_left_eq_setAt (env : Env) (s : CMixer) (c chip L R t : Int)
    (hL : I32 L) (hl : I32 (s.m_iChannelsLeft c)) :
    (AddValue env s c chip L R t).m_iChannelsLeft = setAt s.m_iChannelsLeft c L := by
  rw [AddValue_left]
  split_ifs with h
  · rfl
  · have e : L = s.m_iChannelsLeft c := wrap32_sub_eq_zero hL hl (by simpa using h)
    funext j
    unfold setAt
    split_ifs with hj
    · rw [hj, e]
    · rfl

theorem AddValue_right_eq_setAt (env : Env) (s : CMixer) (c chip L R t : Int)
    (hR : I32 R) (hr : I32 (s.m_iChannelsRight c)) :
    (AddValue env s c chip L R t).m_iChannelsRight = setAt s.m_iChannelsRight c R := by
  rw [AddValue_right]
  split_ifs with h
  · rfl
  · have e : R = s.m_iChannelsRight c := wrap32_sub_eq_zero hR hr (by simpa using h)
    funext j
    unfold setAt
    split_ifs with hj
    · rw [hj, e]
    · rfl

/-- One event keeps the balance between impulse sums and stored amplitudes, at default
separation and with amplitudes below `2^23`. -/
theorem AddValue_sum_step (env : Env) (s : CMixer) (e : Event)
    (hd : [env.CHANID_SQUARE1, env.CHANID_SQUARE2, env.CHANID_SQUARE3,
      env.CHANID_NOISE].Nodup)
    (he : e.defaultOnSN7 env) (hs : e.small)
    (h1 : s.m_fLevelSN7SepHi = F32.lit 1 1) (h2 : s.m_fLevelSN7SepLo = F32.lit 0 1)
    (h3 : ∀ c, (-8388608 < s.m_iChannelsLeft c ∧ s.m_iChannelsLeft c < 8388608) ∧
      (-8388608 < s.m_iChannelsRight c ∧ s.m_iChannelsRight c < 8388608))
    (h4 : impulseSum s.BlipBufferLeft = sumSN7 env s.m_iChannelsLeft)
    (h5 : impulseSum s.BlipBufferRight = sumSN7 env s.m_iChannelsRight) :
    (AddValue env s e.ChanID e.Chip e.Left e.Right e.FrameCycles).m_fLevelSN7SepHi
      = F32.lit 1 1 ∧
    (AddValue env s e.ChanID e.Chip e.Left e.Right e.FrameCycles).m_fLevelSN7SepLo
      = F32.lit 0 1 ∧
    (∀ c,
      (-8388608 < (AddValue env s e.ChanID e.Chip e.Left e.Right e.FrameCycles).m_iChannelsLeft c ∧
        (AddValue env s e.ChanID e.Chip e.Left e.Right e.FrameCycles).m_iChannelsLeft c < 8388608) ∧
      (-8388608 < (AddValue env s e.ChanID e.Chip e.Left e.Right e.FrameCycles).m_iChannelsRight c ∧
        (AddValue env s e.ChanID e.Chip e.Left e.Right e.FrameCycles).m_iChannelsRight c
          < 8388608)) ∧
    impulseSum (AddValue env s e.ChanID e.Chip e.Left e.Right e.FrameCycles).BlipBufferLeft
      = sumSN7 env (AddValue env s e.ChanID e.Chip e.Left e.Right e.FrameCycles).m_iChannelsLeft ∧
    impulseSum (AddValue env s e.ChanID e.Chip e.Left e.Right e.FrameCycles).BlipBufferRight
      = sumSN7 env
        (AddValue env s e.ChanID e.Chip e.Left e.Right e.FrameCycles).m_iChannelsRight := by
  obtain ⟨⟨hL1, hL2⟩, ⟨hR1, hR2⟩⟩ := hs
  obtain ⟨⟨hl1, hl2⟩, ⟨hr1, hr2⟩⟩ := h3 e.ChanID
  have eL := AddValue_left_eq_setAt env s e.ChanID e.Chip e.Left e.Right e.FrameCycles
    (by unfold I32; omega) (by unfold I32; omega)
  have eR := AddValue_right_eq_setAt env s e.ChanID e.Chip e.Left e.Right e.FrameCycles
    (by unfold I32; omega) (by unfold I32; omega)
  have wL : wrap32 (e.Left - s.m_iChannelsLeft e.ChanID) = e.Left - s.m_iChannelsLeft e.ChanID :=
    wrap32_of_I32 (by unfold I32; omega)
  have wR : wrap32 (e.Right - s.m_iChannelsRight e.ChanID)
      = e.Right - s.m_iChannelsRight e.ChanID := wrap32_of_I32 (by unfold I32; omega)
  have mL := F32.toInt_mul_one (e.Left - s.m_iChannelsLeft e.ChanID) (by omega)
  have mR := F32.toInt_mul_one (e.Right - s.m_iChannelsRight e.ChanID) (by omega)
  have hrt : routed env e.ChanID e.Chip = isSN7Channel env e.ChanID := by
    by_cases hc : isSN7Channel env e.ChanID = true
    · rw [hc, routed_iff]; exact ⟨he hc, hc⟩
    · have hf : isSN7Channel env e.ChanID = false := by simpa using hc
      rw [hf]
      simp [routed, hf]
  refine ⟨by rw [AddValue_sepHi, h1], by rw [AddValue_sepLo, h2], ?_, ?_, ?_⟩
  · intro c
    rw [eL, eR]
    unfold setAt
    constructor
    · split_ifs
      · exact ⟨hL1, hL2⟩
      · exact (h3 c).1
    · split_ifs
      · exact ⟨hR1, hR2⟩
      · exact (h3 c).2
  · rw [AddValue_bufL, eL, sumSN7_setAt env _ _ _ hd, impulseSum_append, impulseSum_append,
      h4, h1, h2, wL, wR, hrt, mL, F32.toInt_mul_zero]
    by_cases hc : isSN7Channel env e.ChanID = true
    · simp only [hc, and_true, if_true]
      by_cases hz : e.Left - s.m_iChannelsLeft e.ChanID = 0
      · by_cases hz2 : e.Right - s.m_iChannelsRight e.ChanID = 0
        · simp [hz, hz2, impulseSum_nil]
        · simp [hz, hz2, impulseSum_nil, impulseSum_offset]
      · by_cases hz2 : e.Right - s.m_iChannelsRight e.ChanID = 0
        · simp [hz, hz2, impulseSum_nil, impulseSum_offset]
        · simp [hz, hz2, impulseSum_nil, impulseSum_offset]
    · simp [hc, impulseSum_nil]
  · rw [AddValue_bufR, eR, sumSN7_setAt env _ _ _ hd, impulseSum_append, impulseSum_append,
      h5, h1, h2, wL, wR, hrt, mR, F32.toInt_mul_zero]
    by_cases hc : isSN7Channel env e.ChanID = true
    · simp only [hc, and_true, if_true]
      by_cases hz : e.Left - s.m_iChannelsLeft e.ChanID = 0
      · by_cases hz2 : e.Right - s.m_iChannelsRight e.ChanID = 0
        · simp [hz, hz2, impulseSum_nil]
        · simp [hz, hz2, impulseSum_nil, impulseSum_offset]
      · by_cases hz2 : e.Right - s.m_iChannelsRight e.ChanID = 0
        · simp [hz, hz2, impulseSum_nil, impulseSum_offset]
        · simp [hz, hz2, impulseSum_nil, impulseSum_offset]
    · simp [hc, impulseSum_nil]

theorem play_sums (env : Env)
    (hd : [env.CHANID_SQUARE1, env.CHANID_SQUARE2, env.CHANID_SQUARE3,
      env.CHANID_NOISE].Nodup) :
    ∀ (es : List Event) (s : CMixer),
      (∀ e ∈ es, e.defaultOnSN7 env ∧ e.small) →
      s.m_fLevelSN7SepHi = F32.lit 1 1 → s.m_fLevelSN7SepLo = F32.lit 0 1 →
      (∀ c, (-8388608 < s.m_iChannelsLeft c ∧ s.m_iChannelsLeft c < 8388608) ∧
        (-8388608 < s.m_iChannelsRight c ∧ s.m_iChannelsRight c < 8388608)) →
      impulseSum s.BlipBufferLeft = sumSN7 env s.m_iChannelsLeft →
      impulseSum s.BlipBufferRight = sumSN7 env s.m_iChannelsRight →
      impulseSum (play env s es).BlipBufferLeft = sumSN7 env (play env s es).m_iChannelsLeft ∧
      impulseSum (play env s es).BlipBufferRight
        = sumSN7 env (play env s es).m_iChannelsRight := by
  intro es
  induction es with
  | nil => intro s _ _ _ _ h4 h5; exact ⟨h4, h5⟩
  | cons e es ih =>
    intro s hes h1 h2 h3 h4 h5
    obtain ⟨he, hs⟩ := hes e (List.mem_cons_self _ _)
    obtain ⟨q1, q2, q3, q4, q5⟩ := AddValue_sum_step env s e hd he hs h1 h2 h3 h4 h5
    have := ih _ (fun x hx => hes x (List.mem_cons_of_mem _ hx)) q1 q2 q3 q4 q5
    unfold play at this ⊢
    rw [List.foldl_cons]
    exact this

/-- C18, counterexample. On a new mixer (default separation) the single event
`AddValue(SQUARE1, default, 16777217, 0, 0)` puts impulses of total magnitude 16777216
into the left buffer, while the stored left amplitudes of the four channels sum to
16777217. -/
theorem impulse_sum_misses_large_amplitude :
    ¬ (impulseSum (play sampleEnv CMixer.new [⟨0, 0, 16777217, 0, 0⟩]).BlipBufferLeft
      = sumSN7 sampleEnv (play sampleEnv CMixer.new [⟨0, 0, 16777217, 0, 0⟩]).m_iChannelsLeft) := by
  have e : play sampleEnv CMixer.new [⟨0, 0, 16777217, 0, 0⟩]
      = AddValue sampleEnv CMixer.new 0 0 16777217 0 0 := rfl
  rw [e, AddValue_bufL, AddValue_left]
  decide

/-- C18, amended. Impulse sums reconstruct the amplitude: with the four square and
noise channel numbers distinct, starting from a new mixer (default separation), after
every sequence of `AddValue` calls whose amplitudes are below `2^23` in magnitude and
which address square and noise channels only with the default chip, the magnitudes of
the impulses sent to the left buffer sum to the sum of the stored left amplitudes of
the four channels, and likewise for the right buffer. -/
theorem impulse_sums (env : Env) (es : List Event)
    (hd : [env.CHANID_SQUARE1, env.CHANID_SQUARE2, env.CHANID_SQUARE3,
      env.CHANID_NOISE].Nodup)
    (hes : ∀ e ∈ es, e.defaultOnSN7 env ∧ e.small) :
    impulseSum (play env CMixer.new es).BlipBufferLeft
      = sumSN7 env (play env CMixer.new es).m_iChannelsLeft ∧
    impulseSum (play env CMixer.new es).BlipBufferRight
      = sumSN7 env (play env CMixer.new es).m_iChannelsRight := by
  refine play_sums env hd es CMixer.new hes rfl rfl ?_ ?_ ?_
  · intro c
    have z : (-8388608 : Int) < 0 ∧ (0 : Int) < 8388608 := by decide
    exact ⟨z, z⟩
  · show (0 : Int) = 0 + 0 + 0 + 0
    rfl
  · show (0 : Int) = 0 + 0 + 0 + 0
    rfl

/-- C18, amended: an instance with events on two square channels and on a channel
outside the four. -/
theorem impulse_sums_witness :
    impulseSum (play sampleEnv CMixer.new
        [⟨0, 0, 200, 200, 0⟩, ⟨1, 0, -30, 70, 5⟩, ⟨4, 0, 9, 9, 6⟩, ⟨0, 0, 0, 50, 100⟩]).BlipBufferLeft
      = sumSN7 sampleEnv (play sampleEnv CMixer.new
        [⟨0, 0, 200, 200, 0⟩, ⟨1, 0, -30, 70, 5⟩, ⟨4, 0, 9, 9, 6⟩,
          ⟨0, 0, 0, 50, 100⟩]).m_iChannelsLeft ∧
    impulseSum (play sampleEnv CMixer.new
        [⟨0, 0, 200, 200, 0⟩, ⟨1, 0, -30, 70, 5⟩, ⟨4, 0, 9, 9, 6⟩, ⟨0, 0, 0, 50, 100⟩]).BlipBufferRight
      = sumSN7 sampleEnv (play sampleEnv CMixer.new
        [⟨0, 0, 200, 200, 0⟩, ⟨1, 0, -30, 70, 5⟩, ⟨4, 0, 9, 9, 6⟩,
          ⟨0, 0, 0, 50, 100⟩]).m_iChannelsRight :=
  impulse_sums sampleEnv
    [⟨0, 0, 200, 200, 0⟩, ⟨1, 0, -30, 70, 5⟩, ⟨4, 0, 9, 9, 6⟩, ⟨0, 0, 0, 50, 100⟩]
    (by decide) (by decide)

end CMixer

namespace F32

/-! ### Rounding to nearest: grid points and error bounds -/

theorem bitLenAux_ge : ∀ (fuel n m : Nat), n ≤ fuel → 2 ^ m ≤ n → m + 1 ≤ bitLenAux fuel n := by
  intro fuel
  induction fuel with
  | zero =>
    intro n m h1 h2
    have : 0 < 2 ^ m := by positivity
    omega
  | succ f ih =>
    intro n m h1 h2
    have hpos : 0 < 2 ^ m := by positivity
    simp only [bitLenAux]
    rw [if_neg (by omega)]
    cases m with
    | zero => omega
    | succ m =>
      have h3 : 2 ^ m ≤ n / 2 := by
        rw [Nat.le_div_iff_mul_le (by norm_num)]
        rw [pow_succ] at h2; exact h2
      have := ih (n / 2) m (by omega) h3
      omega

theorem bitLen_ge {n m : Nat} (h : 2 ^ m ≤ n) : m + 1 ≤ bitLen n :=
  bitLenAux_ge n n m (le_refl _) h

/-- The number of binary digits of a number in `[2^m, 2^(m+1))`. -/
theorem bitLen_eq {n m : Nat} (h1 : 2 ^ m ≤ n) (h2 : n < 2 ^ (m + 1)) : bitLen n = m + 1 :=
  le_antisymm (bitLen_le h2) (bitLen_ge h1)

/-- The rounded magnitude is a multiple of the rounding step. -/
theorem roundMag_dvd (a : Nat) : 2 ^ (bitLen a - 24) ∣ roundMag a 1 := by
  unfold roundMag
  simp only [Nat.div_one, one_mul]
  exact Dvd.intro_left _ rfl

/-- Rounding to nearest moves a magnitude down by at most half a step. -/
theorem roundMag_ge (a : Nat) : 2 * a ≤ 2 * roundMag a 1 + 2 ^ (bitLen a - 24) := by
  unfold roundMag
  simp only [Nat.div_one, one_mul]
  have hpos : 0 < 2 ^ (bitLen a - 24) := by positivity
  generalize 2 ^ (bitLen a - 24) = D at hpos
  have hd := Nat.div_add_mod a D
  have hr := Nat.mod_lt a hpos
  have hm : D * (a / D) = a / D * D := Nat.mul_comm _ _
  split_ifs with h1 h2 h3
  · omega
  · rw [Nat.add_mul]; omega
  · omega
  · rw [Nat.add_mul]; omega

/-- Rounding never moves a quotient below a grid point that it is not below. -/
theorem roundMag_grid_le (a den M K : Nat) (hden : 0 < den) (hk : bitLen (a / den) - 24 ≤ K)
    (hM : 2 ^ K ∣ M) (h : M * den ≤ a) : M ≤ roundMag a den := by
  unfold roundMag
  dsimp only
  generalize bitLen (a / den) - 24 = k at hk
  have hM2 : 2 ^ k ∣ M := Dvd.dvd.trans (Nat.pow_dvd_pow 2 hk) hM
  obtain ⟨m, rfl⟩ := hM2
  have hf : m ≤ a / (den * 2 ^ k) := by
    have h0 : 0 < den * 2 ^ k := Nat.mul_pos hden (by positivity)
    rw [Nat.le_div_iff_mul_le h0]
    calc m * (den * 2 ^ k) = 2 ^ k * m * den := by ring
      _ ≤ a := h
  have hle : ∀ n, a / (den * 2 ^ k) ≤ n → 2 ^ k * m ≤ n * 2 ^ k := by
    intro n hn
    calc 2 ^ k * m = m * 2 ^ k := Nat.mul_comm _ _
      _ ≤ n * 2 ^ k := Nat.mul_le_mul_right _ (le_trans hf hn)
  split_ifs
  · exact hle _ (le_refl _)
  · exact hle _ (Nat.le_succ _)
  · exact hle _ (le_refl _)
  · exact hle _ (Nat.le_succ _)

/-- Rounding never moves a quotient above a grid point that it is not above. -/
theorem roundMag_le_grid (a den M K : Nat) (hden : 0 < den) (hk : bitLen (a / den) - 24 ≤ K)
    (hM : 2 ^ K ∣ M) (h : a ≤ M * den) : roundMag a den ≤ M := by
  unfold roundMag
  dsimp only
  generalize bitLen (a / den) - 24 = k at hk
  have hM2 : 2 ^ k ∣ M := Dvd.dvd.trans (Nat.pow_dvd_pow 2 hk) hM
  obtain ⟨m, rfl⟩ := hM2
  have hD : 0 < den * 2 ^ k := Nat.mul_pos hden (by positivity)
  have ha : a ≤ m * (den * 2 ^ k) := by
    calc a ≤ 2 ^ k * m * den := h
      _ = m * (den * 2 ^ k) := by ring
  have hdm := Nat.div_add_mod a (den * 2 ^ k)
  have hfm : a / (den * 2 ^ k) ≤ m := by
    calc a / (den * 2 ^ k) ≤ m * (den * 2 ^ k) / (den * 2 ^ k) := Nat.div_le_div_right ha
      _ = m := Nat.mul_div_cancel _ hD
  have hup : 0 < a % (den * 2 ^ k) → a / (den * 2 ^ k) + 1 ≤ m := by
    intro hr
    by_contra hc
    have he : a / (den * 2 ^ k) = m := by omega
    rw [he] at hdm
    have : m * (den * 2 ^ k) = den * 2 ^ k * m := Nat.mul_comm _ _
    omega
  have hle : ∀ n, n ≤ m → n * 2 ^ k ≤ 2 ^ k * m := by
    intro n hn
    calc n * 2 ^ k ≤ m * 2 ^ k := Nat.mul_le_mul_right _ hn
      _ = 2 ^ k * m := Nat.mul_comm _ _
  split_ifs with h1 h2 h3
  · exact hle _ hfm
  · exact hle _ (hup (by omega))
  · exact hle _ hfm
  · exact hle _ (hup (by omega))

end F32

namespace CMixer

end CMixer

namespace F32

/-! ### The two separation factors add up to one -/

/-- For a half level `x` between 0 and `0.5`, the single-precision values of
`0.5 + x` and `0.5 - x` have the single-precision sum `1.0`. -/
theorem sepSum_nat (x : Nat) (hx : x ≤ 2 ^ 148) :
    roundMag (roundMag (2 ^ 148 + x) 1 + roundMag (2 ^ 148 - x) 1) 1 = 2 ^ 149 := by
  have e124 : (2 : Nat) ^ 124 = 21267647932558653966460912964485513216 := by norm_num
  have e125 : (2 : Nat) ^ 125 = 42535295865117307932921825928971026432 := by norm_num
  have e126 : (2 : Nat) ^ 126 = 85070591730234615865843651857942052864 := by norm_num
  have e148 : (2 : Nat) ^ 148 = 356811923176489970264571492362373784095686656 := by norm_num
  have e149 : (2 : Nat) ^ 149 = 713623846352979940529142984724747568191373312 := by norm_num
  have e150 : (2 : Nat) ^ 150 = 1427247692705959881058285969449495136382746624 := by norm_num
  rw [e148, e149]
  rw [e148] at hx
  rcases Nat.eq_zero_or_pos x with h0 | h0
  · subst h0; decide
  rcases Nat.eq_or_lt_of_le hx with hH | hH
  · subst hH; decide
  -- the larger factor: its rounding step is 2^125
  have hb1 : bitLen (356811923176489970264571492362373784095686656 + x) = 149 := bitLen_eq (by rw [e148]; omega) (by rw [e149]; omega)
  have E1 := roundMag_le (356811923176489970264571492362373784095686656 + x)
  have E2 := roundMag_ge (356811923176489970264571492362373784095686656 + x)
  obtain ⟨p, hp⟩ := roundMag_dvd (356811923176489970264571492362373784095686656 + x)
  rw [hb1] at E1 E2 hp
  norm_num only [] at E1 E2 hp
  -- the smaller factor: its rounding step is at most 2^124
  have hb2 : bitLen (356811923176489970264571492362373784095686656 - x) - 24 ≤ 124 := by
    have : bitLen (356811923176489970264571492362373784095686656 - x) ≤ 148 := bitLen_le (by rw [e148]; omega)
    omega
  have hb2' : bitLen ((356811923176489970264571492362373784095686656 - x) / 1) - 24 ≤ 124 := by rw [Nat.div_one]; exact hb2
  have gridLo : ∀ M, 2 ^ 124 ∣ M → M ≤ 356811923176489970264571492362373784095686656 - x → M ≤ roundMag (356811923176489970264571492362373784095686656 - x) 1 := by
    intro M hM hle
    exact roundMag_grid_le _ 1 M 124 (by norm_num) hb2' hM (by omega)
  have gridUp : ∀ M, 2 ^ 124 ∣ M → 356811923176489970264571492362373784095686656 - x ≤ M → roundMag (356811923176489970264571492362373784095686656 - x) 1 ≤ M := by
    intro M hM hle
    exact roundMag_le_grid _ 1 M 124 (by norm_num) hb2' hM (by omega)
  rw [e124] at gridLo gridUp
  have hq : x / 42535295865117307932921825928971026432 ≤ 8388607 := by omega
  have g1 := gridLo (356811923176489970264571492362373784095686656 - 42535295865117307932921825928971026432 * (x / 42535295865117307932921825928971026432) - 21267647932558653966460912964485513216) ⟨16777216 - 2 * (x / 42535295865117307932921825928971026432) - 1, by omega⟩
  have g2 := gridLo (356811923176489970264571492362373784095686656 - 42535295865117307932921825928971026432 * (x / 42535295865117307932921825928971026432) - 42535295865117307932921825928971026432) ⟨16777216 - 2 * (x / 42535295865117307932921825928971026432) - 2, by omega⟩
  have g3 := gridUp (356811923176489970264571492362373784095686656 - 42535295865117307932921825928971026432 * (x / 42535295865117307932921825928971026432)) ⟨16777216 - 2 * (x / 42535295865117307932921825928971026432), by omega⟩ (by omega)
  have g4 := gridUp (356811923176489970264571492362373784095686656 - 42535295865117307932921825928971026432 * (x / 42535295865117307932921825928971026432) - 21267647932558653966460912964485513216) ⟨16777216 - 2 * (x / 42535295865117307932921825928971026432) - 1, by omega⟩
  generalize roundMag (356811923176489970264571492362373784095686656 + x) 1 = hi at *
  generalize roundMag (356811923176489970264571492362373784095686656 - x) 1 = lo at *
  have hS1 : 713623846352979940529142984724747568191373312 - 21267647932558653966460912964485513216 ≤ hi + lo := by omega
  have hS2 : hi + lo ≤ 713623846352979940529142984724747568191373312 + 21267647932558653966460912964485513216 := by omega
  clear g1 g2 g3 g4 gridLo gridUp E1 E2 hp hb1 hb2 hb2'
  generalize hi + lo = S at *
  rcases Nat.lt_or_ge S 713623846352979940529142984724747568191373312 with hlt | hge
  · rcases Nat.eq_or_lt_of_le hS1 with heq | hgt
    · rw [← heq]; decide
    · have hb : bitLen S = 149 := bitLen_eq (by rw [e148]; omega) (by rw [e149]; omega)
      have F2 := roundMag_ge S
      obtain ⟨p', hp'⟩ := roundMag_dvd S
      have hb' : bitLen (S / 1) - 24 ≤ 125 := by rw [Nat.div_one, hb]
      have F3 := roundMag_le_grid S 1 713623846352979940529142984724747568191373312 125 (by norm_num) hb'
        ⟨16777216, by norm_num⟩ (by omega)
      rw [hb] at F2 hp'
      norm_num only [] at F2 hp'
      omega
  · have hb : bitLen S = 150 := bitLen_eq (by rw [e149]; omega) (by rw [e150]; omega)
    have F1 := roundMag_le S
    obtain ⟨p', hp'⟩ := roundMag_dvd S
    have hb' : bitLen (S / 1) - 24 ≤ 126 := by rw [Nat.div_one, hb]
    have F3 := roundMag_grid_le S 1 713623846352979940529142984724747568191373312 126 (by norm_num) hb'
      ⟨8388608, by norm_num⟩ (by omega)
    rw [hb] at F1 hp'
    norm_num only [] at F1 hp'
    omega

end F32

namespace CMixer

end CMixer

namespace F32

theorem lit_half : F32.lit 5 10 = ((2 ^ 148 : Nat) : Int) := by decide

theorem lit_two : F32.lit 2 1 = ((2 ^ 150 : Nat) : Int) := by decide

theorem lit_one_pow : F32.lit 1 1 = ((2 ^ 149 : Nat) : Int) := by decide

/-- Half of a level between 0 and `1.0` is a float between 0 and `0.5`. -/
theorem div_two_bounds (L : Int) (h0 : 0 ≤ L) (h1 : L ≤ F32.lit 1 1) :
    ∃ xn : Nat, F32.div L (F32.lit 2 1) = (xn : Int) ∧ xn ≤ 2 ^ 148 := by
  rw [lit_one_pow] at h1
  have hu : unit = 2 ^ 149 := rfl
  have hnn : 0 ≤ L * (unit : Int) := mul_nonneg h0 (Int.natCast_nonneg _)
  refine ⟨roundMag (L * (unit : Int)).natAbs (2 ^ 150), ?_, ?_⟩
  · unfold F32.div
    rw [lit_two, if_pos (Int.natCast_nonneg _), Int.natAbs_ofNat]
    unfold F32.round
    rw [if_pos hnn]
  · obtain ⟨l, rfl⟩ := Int.eq_ofNat_of_zero_le h0
    have hl : l ≤ 2 ^ 149 := by exact_mod_cast h1
    have habs : ((l : Int) * (unit : Int)).natAbs = l * unit := by
      rw [Int.natAbs_mul, Int.natAbs_ofNat, Int.natAbs_ofNat]
    rw [habs, hu]
    have hq : l * 2 ^ 149 / 2 ^ 150 < 2 ^ 149 := by
      rw [Nat.div_lt_iff_lt_mul (by positivity)]
      calc l * 2 ^ 149 ≤ 2 ^ 149 * 2 ^ 149 := Nat.mul_le_mul_right _ hl
        _ < 2 ^ 149 * 2 ^ 150 := by norm_num
    have hk : bitLen (l * 2 ^ 149 / 2 ^ 150) - 24 ≤ 125 := by
      have := bitLen_le hq
      omega
    apply roundMag_le_grid _ _ _ 125 (by positivity) hk (Nat.pow_dvd_pow 2 (by norm_num))
    calc l * 2 ^ 149 ≤ 2 ^ 149 * 2 ^ 149 := Nat.mul_le_mul_right _ hl
      _ = 2 ^ 148 * 2 ^ 150 := by norm_num

/-- For a separation level between 0 and `1.0`, the float sum of `0.5f + Level / 2.f`
and `0.5f - Level / 2.f` is `1.0f`. -/
theorem sepSum (L : Int) (h0 : 0 ≤ L) (h1 : L ≤ F32.lit 1 1) :
    F32.add (F32.add (F32.lit 5 10) (F32.div L (F32.lit 2 1)))
      (F32.sub (F32.lit 5 10) (F32.div L (F32.lit 2 1))) = F32.lit 1 1 := by
  obtain ⟨xn, hx, hle⟩ := div_two_bounds L h0 h1
  rw [hx, lit_half, lit_one_pow]
  have a1 : F32.add ((2 ^ 148 : Nat) : Int) (xn : Int) = (roundMag (2 ^ 148 + xn) 1 : Int) := by
    unfold F32.add F32.round
    have e : ((2 ^ 148 : Nat) : Int) + (xn : Int) = ((2 ^ 148 + xn : Nat) : Int) := by
      push_cast; rfl
    rw [e, if_pos (Int.natCast_nonneg _), Int.natAbs_ofNat]
  have a2 : F32.sub ((2 ^ 148 : Nat) : Int) (xn : Int) = (roundMag (2 ^ 148 - xn) 1 : Int) := by
    unfold F32.sub F32.round
    have e : ((2 ^ 148 : Nat) : Int) - (xn : Int) = ((2 ^ 148 - xn : Nat) : Int) := by
      rw [Int.ofNat_sub hle]
    rw [e, if_pos (Int.natCast_nonneg _), Int.natAbs_ofNat]
  rw [a1, a2]
  unfold F32.add F32.round
  have e : (roundMag (2 ^ 148 + xn) 1 : Int) + (roundMag (2 ^ 148 - xn) 1 : Int)
      = ((roundMag (2 ^ 148 + xn) 1 + roundMag (2 ^ 148 - xn) 1 : Nat) : Int) := by
    push_cast; rfl
  rw [e, if_pos (Int.natCast_nonneg _), Int.natAbs_ofNat, sepSum_nat xn hle]

end F32

namespace CMixer

/-! ### Separation -/

/-- C11, counterexample. For the separation level `1 + 2^-23` (the float next above
`1.0`) the two factors are `1.0` and `-2^-24`; neither their single-precision sum nor
their exact sum is 1.  For the level `2^-24`, inside `[0, 1]`, the factors are `0.5` and
`0.5 - 2^-25`, whose exact sum is not 1. -/
theorem separation_sum_not_one :
    ¬ (F32.add (SetChipLevel CMixer.new chip_level_t.CHIP_LEVEL_SN7Sep justAboveOne).m_fLevelSN7SepHi
        (SetChipLevel CMixer.new chip_level_t.CHIP_LEVEL_SN7Sep justAboveOne).m_fLevelSN7SepLo
        = F32.lit 1 1) ∧
    ¬ ((SetChipLevel CMixer.new chip_level_t.CHIP_LEVEL_SN7Sep justAboveOne).m_fLevelSN7SepHi
        + (SetChipLevel CMixer.new chip_level_t.CHIP_LEVEL_SN7Sep justAboveOne).m_fLevelSN7SepLo
        = F32.lit 1 1) ∧
    ¬ ((SetChipLevel CMixer.new chip_level_t.CHIP_LEVEL_SN7Sep tinyLevel).m_fLevelSN7SepHi
        + (SetChipLevel CMixer.new chip_level_t.CHIP_LEVEL_SN7Sep tinyLevel).m_fLevelSN7SepLo
        = F32.lit 1 1) := by
  decide

/-- C11, amended. Separation symmetry: setting the separation parameter to a level
`L` with `0 ≤ L ≤ 1` yields `sepHigh = 0.5f + L / 2.f` and `sepLow = 0.5f - L / 2.f`
in single precision, and the single-precision sum `sepHigh + sepLow` is exactly
`1.0f`; `L = 1` yields `(1, 0)` and `L = 0` yields `(0.5, 0.5)`. -/
theorem separation_symmetry (s : CMixer) (L : F32) (h0 : 0 ≤ L) (h1 : L ≤ F32.lit 1 1) :
    (SetChipLevel s chip_level_t.CHIP_LEVEL_SN7Sep L).m_fLevelSN7SepHi
      = F32.add (F32.lit 5 10) (F32.div L (F32.lit 2 1)) ∧
    (SetChipLevel s chip_level_t.CHIP_LEVEL_SN7Sep L).m_fLevelSN7SepLo
      = F32.sub (F32.lit 5 10) (F32.div L (F32.lit 2 1)) ∧
    F32.add (SetChipLevel s chip_level_t.CHIP_LEVEL_SN7Sep L).m_fLevelSN7SepHi
      (SetChipLevel s chip_level_t.CHIP_LEVEL_SN7Sep L).m_fLevelSN7SepLo = F32.lit 1 1 ∧
    (SetChipLevel s chip_level_t.CHIP_LEVEL_SN7Sep (F32.lit 1 1)).m_fLevelSN7SepHi = F32.lit 1 1 ∧
    (SetChipLevel s chip_level_t.CHIP_LEVEL_SN7Sep (F32.lit 1 1)).m_fLevelSN7SepLo = F32.lit 0 1 ∧
    (SetChipLevel s chip_level_t.CHIP_LEVEL_SN7Sep (F32.lit 0 1)).m_fLevelSN7SepHi = F32.lit 5 10 ∧
    (SetChipLevel s chip_level_t.CHIP_LEVEL_SN7Sep (F32.lit 0 1)).m_fLevelSN7SepLo
      = F32.lit 5 10 := by
  refine ⟨rfl, rfl, ?_, ?_, ?_, ?_, ?_⟩
  · exact F32.sepSum L h0 h1
  · show F32.add (F32.lit 5 10) (F32.div (F32.lit 1 1) (F32.lit 2 1)) = F32.lit 1 1
    decide
  · show F32.sub (F32.lit 5 10) (F32.div (F32.lit 1 1) (F32.lit 2 1)) = F32.lit 0 1
    decide
  · show F32.add (F32.lit 5 10) (F32.div (F32.lit 0 1) (F32.lit 2 1)) = F32.lit 5 10
    decide
  · show F32.sub (F32.lit 5 10) (F32.div (F32.lit 0 1) (F32.lit 2 1)) = F32.lit 5 10
    decide

/-- C11, amended: an instance, the level `0.3f`, whose factors are not exact but still
add up to `1.0f`. -/
theorem separation_symmetry_witness :
    F32.add (SetChipLevel CMixer.new chip_level_t.CHIP_LEVEL_SN7Sep (F32.lit 3 10)).m_fLevelSN7SepHi
      (SetChipLevel CMixer.new chip_level_t.CHIP_LEVEL_SN7Sep (F32.lit 3 10)).m_fLevelSN7SepLo
      = F32.lit 1 1 :=
  (separation_symmetry CMixer.new (F32.lit 3 10) (by decide) (by decide)).2.2.1

end CMixer
end SnevenTracker
